import Mathlib

/-!
# Thread-local memory pool (`thread_local_memory_pool.h`)

A shallow embedding of `tlsmempool::ThreadLocalMemoryPool<T, P>`.

The members `allocate` and `deallocate` of `tlsmempool::ThreadLocalPointerAllocator<T, P>` are not
embedded: they call the non-static members `Create(int)` and `Destroy(chunk_type*, int)` through
the class name, from a class that neither derives from the manager nor holds one, so neither
member can be instantiated and there is no behaviour to translate.

* Pointers are natural numbers counted in units of `sizeof(chunk_type)`; `0` is `NULL`, and
  `obj_array + idx` is addition.
* The two template parameters are records: `ChunkType` (the pooled type `T`, with the behaviour of
  its default constructor) and `PoolPolicy` (the pool type `P`, with the member functions the header
  calls on it).
* `boost::thread_specific_ptr<pool_type>` is a map from thread ids to an optional pool; the pool a
  slot points to is mutated in place by the pool's member functions, which the embedding renders as
  an update of the slot.
* Every operation takes the calling thread's id and the state of the whole process (`World`) and
  returns its C++ result together with the new state.
* An `int` argument is an integer; its conversion to `size_type` at the calls of the policy is
  explicit (`int_to_size`).
* The definitions come first: the manager, a model of `boost::pool<>` (the policy
  `bench.cpp` instantiates), and the vocabulary of the properties. The properties follow, the one
  for each numbered claim under a heading that names it.
-/

namespace tlsmempool

/-! # The embedding -/

/-! ## Template parameters -/

/-- Calls of the constructor and of the destructor of `chunk_type`, by object address. -/
inductive Event where
  | ctor (addr : Nat)
  | dtor (addr : Nat)
  deriving DecidableEq, Repr

/-- The template parameter `T` (`chunk_type`): its size and whether the default constructor
`new (addr) chunk_type()` completes (`true`) or throws (`false`), given the calls made so far. -/
structure ChunkType where
  sizeof : Nat
  ctor_ok : List Event → Nat → Bool

/-- The template parameter `P` (`pool_type`): the state of one pool object, the state of the system
allocator the pools draw from, and the member functions the header uses.
`new_pool sz` is `new pool_type(sz)` (`none` when it throws), `delete_pool` is `delete mem_pool`;
`malloc` and `ordered_malloc` return the chunk address (`0` for a null result).
`tss_reset_ok` tells whether `thread_local_pool.reset(mem_pool)` on an empty slot completes
(`false` when it throws): binding a value takes memory from the same system allocator. -/
structure PoolPolicy where
  Pool : Type
  Sys : Type
  new_pool : Nat → Sys → Option (Pool × Sys)
  tss_reset_ok : Sys → Bool
  delete_pool : Pool → Sys → Sys
  malloc : Pool → Sys → Nat × Pool × Sys
  ordered_malloc : Pool → Sys → Nat → Nat × Pool × Sys
  free : Pool → Nat → Pool
  ordered_free : Pool → Nat → Nat → Pool
  is_from : Pool → Nat → Bool
  purge_memory : Pool → Sys → Pool × Sys

/-! ## Process state -/

/-- The state of the process: the slot of every thread (`thread_local_pool`), the system allocator,
and the constructor/destructor calls made so far. -/
structure World (P : PoolPolicy) where
  tss : Nat → Option P.Pool
  sys : P.Sys
  log : List Event

/-- The value `kSuccess`. -/
def kSuccess : Int := 0

/-- The value `kFailed`. -/
def kFailed : Int := -1

/-- The value `kNoMemPool`. -/
def kNoMemPool : Int := -2

/-- The value `kFromElse`. -/
def kFromElse : Int := -3

/-- Conversion of an `int` argument to `size_type` (64-bit unsigned) at a call of the policy. -/
def int_to_size (count : Int) : Nat := (count % 2 ^ 64).toNat

/-! ## `ThreadLocalMemoryPool` -/

/-- The function `GetMemoryPool()`: the calling thread's pool, created and bound on first use. When
`new pool_type(sizeof(chunk_type))` throws, the handler finds `mem_pool` still null, leaves the
slot empty and the result is `NULL` (`none`); when `thread_local_pool.reset(mem_pool)` throws, the
handler deletes the new pool, empties the slot and the result is `NULL` as well. -/
def GetMemoryPool (P : PoolPolicy) (T : ChunkType) (w : World P) (tid : Nat) :
    Option P.Pool × World P :=
  match w.tss tid with
  | some mem_pool => (some mem_pool, w)
  | none =>
    match P.new_pool T.sizeof w.sys with
    | some (mem_pool, sys1) =>
      if P.tss_reset_ok sys1 then
        (some mem_pool, { w with tss := Function.update w.tss tid (some mem_pool), sys := sys1 })
      else
        (none, { w with tss := Function.update w.tss tid none,
                        sys := P.delete_pool mem_pool sys1 })
    | none => (none, { w with tss := Function.update w.tss tid none })

/-- The function `Create()`: one chunk from the calling thread's pool with a default-constructed object in it.
A throwing constructor is caught: the chunk goes back with `free` and the result is `NULL`. -/
def Create (P : PoolPolicy) (T : ChunkType) (w : World P) (tid : Nat) : Nat × World P :=
  match GetMemoryPool P T w tid with
  | (none, w1) => (0, w1)
  | (some mem_pool, w1) =>
    match P.malloc mem_pool w1.sys with
    | (obj, pool1, sys1) =>
      if obj = 0 then
        (0, { w1 with tss := Function.update w1.tss tid (some pool1), sys := sys1 })
      else if T.ctor_ok w1.log obj then
        (obj, { tss := Function.update w1.tss tid (some pool1), sys := sys1,
                log := w1.log ++ [Event.ctor obj] })
      else
        (0, { w1 with tss := Function.update w1.tss tid (some (P.free pool1 obj)), sys := sys1 })

/-- The loop `for (idx; idx < count; ++idx) new (obj_array + idx) chunk_type();` with `todo`
iterations left: `true` when every constructor completed, `false` at the first one that throws;
the objects built before that stay built. -/
def construct_loop (T : ChunkType) (obj_array : Nat) : Nat → Nat → List Event → Bool × List Event
  | _, 0, log => (true, log)
  | idx, todo + 1, log =>
    if T.ctor_ok log (obj_array + idx) then
      construct_loop T obj_array (idx + 1) todo (log ++ [Event.ctor (obj_array + idx)])
    else (false, log)

/-- The function `Create(int count)`: `count` contiguous chunks with default-constructed objects. A throwing
constructor is caught: the whole block goes back with `ordered_free` and the result is `NULL`. -/
def CreateN (P : PoolPolicy) (T : ChunkType) (w : World P) (tid : Nat) (count : Int) :
    Nat × World P :=
  match GetMemoryPool P T w tid with
  | (none, w1) => (0, w1)
  | (some mem_pool, w1) =>
    match P.ordered_malloc mem_pool w1.sys (int_to_size count) with
    | (obj_array, pool1, sys1) =>
      if obj_array = 0 then
        (0, { w1 with tss := Function.update w1.tss tid (some pool1), sys := sys1 })
      else
        match construct_loop T obj_array 0 count.toNat w1.log with
        | (true, log1) =>
          (obj_array, { tss := Function.update w1.tss tid (some pool1), sys := sys1, log := log1 })
        | (false, log1) =>
          let pool2 := P.ordered_free pool1 obj_array (int_to_size count)
          (0, { tss := Function.update w1.tss tid (some pool2), sys := sys1, log := log1 })

/-- The function `Destroy(chunk_type* ptr)`. -/
def Destroy (P : PoolPolicy) (T : ChunkType) (w : World P) (tid : Nat) (ptr : Nat) :
    Int × World P :=
  if ptr = 0 then (kSuccess, w)
  else
    match GetMemoryPool P T w tid with
    | (none, w1) => (kNoMemPool, w1)
    | (some mem_pool, w1) =>
      if P.is_from mem_pool ptr = false then (kFromElse, w1)
      else (kSuccess, { w1 with tss := Function.update w1.tss tid (some (P.free mem_pool ptr)) })

/-- The function `Destroy(chunk_type* ptr, int count)`. -/
def DestroyN (P : PoolPolicy) (T : ChunkType) (w : World P) (tid : Nat) (ptr : Nat)
    (count : Int) : Int × World P :=
  if ptr = 0 then (kSuccess, w)
  else
    match GetMemoryPool P T w tid with
    | (none, w1) => (kNoMemPool, w1)
    | (some mem_pool, w1) =>
      if P.is_from mem_pool ptr = false then (kFromElse, w1)
      else
        let pool1 := P.ordered_free mem_pool ptr (int_to_size count)
        (kSuccess, { w1 with tss := Function.update w1.tss tid (some pool1) })

/-- The function `PurgeMemory()`. -/
def PurgeMemory (P : PoolPolicy) (T : ChunkType) (w : World P) (tid : Nat) : Int × World P :=
  match GetMemoryPool P T w tid with
  | (none, w1) => (kNoMemPool, w1)
  | (some mem_pool, w1) =>
    match P.purge_memory mem_pool w1.sys with
    | (pool1, sys1) =>
      (kSuccess, { w1 with tss := Function.update w1.tss tid (some pool1), sys := sys1 })

/-- The function `ReleaseMemoryPool()`: `thread_local_pool.reset()` deletes the pool the slot holds, if any, and
empties the slot. -/
def ReleaseMemoryPool (P : PoolPolicy) (w : World P) (tid : Nat) : World P :=
  match w.tss tid with
  | none => w
  | some mem_pool =>
    { w with tss := Function.update w.tss tid none, sys := P.delete_pool mem_pool w.sys }

/-! ## The policy `boost::pool<>`

`bench.cpp` instantiates the manager as `ThreadLocalMemoryPool<string, boost::pool<> >`, and the
header names `boost::pool` as the pool type it supports. The library is not part of the repository;
the definitions below follow the documented behaviour of `boost::pool` with the default user
allocator, at the granularity of one chunk per object: a pool is a list of memory blocks obtained
from the system and a free list of chunks threaded through them. -/

/-- The system allocator behind `UserAllocator::malloc` and `UserAllocator::free`: `brk` is the
highest address handed out so far, `avail` the memory left, in chunks. -/
structure BoostSys where
  brk : Nat
  avail : Nat
  deriving DecidableEq, Repr

/-- The system call `UserAllocator::malloc` for a block of `n` chunks and its header: the address
of the first chunk, or `none` when the memory left does not suffice. -/
def sys_malloc (s : BoostSys) (n : Nat) : Option (Nat × BoostSys) :=
  if n < s.avail then some (s.brk + 1, { brk := s.brk + 1 + n, avail := s.avail - (n + 1) })
  else none

/-- The system call `UserAllocator::free` for a block of `n` chunks and its header. -/
def sys_free (s : BoostSys) (n : Nat) : BoostSys := { s with avail := s.avail + (n + 1) }

/-- The members of a `boost::pool` object: `list` holds the memory blocks as pairs of the address
of the first chunk and the number of chunks, `first` is the free list of the segregated storage. -/
structure BoostPool where
  requested_size : Nat
  next_size : Nat
  start_size : Nat
  list : List (Nat × Nat)
  first : List Nat
  deriving DecidableEq, Repr

/-- The constructor `pool(requested_size)` behind `new`, which needs memory for the pool object:
no block, an empty free list, and 32 chunks for the first block. -/
def boost_new (sz : Nat) (s : BoostSys) : Option (BoostPool × BoostSys) :=
  if 0 < s.avail then
    some ({ requested_size := sz, next_size := 32, start_size := 32, list := [], first := [] },
          { s with avail := s.avail - 1 })
  else none

/-- The member `is_from(chunk)`: whether the address lies inside one of the pool's blocks. -/
def boost_is_from (p : BoostPool) (chunk : Nat) : Bool :=
  p.list.any (fun b => decide (b.1 ≤ chunk) && decide (chunk < b.1 + b.2))

/-- The member `simple_segregated_storage::malloc()`: the head of the free list. -/
def store_malloc (first : List Nat) : Nat × List Nat :=
  match first with
  | [] => (0, [])
  | c :: rest => (c, rest)

/-- Insertion of a run of chunks into an ordered free list at the place `find_prev` gives: after
the leading chunks whose address is not greater than the address of the run. -/
def add_ordered_block (first : List Nat) (block : Nat) (n : Nat) : List Nat :=
  first.takeWhile (fun c => decide (c ≤ block)) ++ List.range' block n ++
    first.dropWhile (fun c => decide (c ≤ block))

/-- Insertion of a block into the address-ordered block list. -/
def insert_block (list : List (Nat × Nat)) (node : Nat × Nat) : List (Nat × Nat) :=
  list.takeWhile (fun b => decide (b.1 ≤ node.1)) ++ node ::
    list.dropWhile (fun b => decide (b.1 ≤ node.1))

/-- A new block of `k` chunks at `base` for `malloc()`: the block is segregated in front of the
free list, `next_size` doubles, and the first chunk is handed out. -/
def boost_grow (p : BoostPool) (k base : Nat) : Nat × BoostPool :=
  let r := store_malloc (List.range' base k ++ p.first)
  (r.1, { p with next_size := 2 * k, list := (base, k) :: p.list, first := r.2 })

/-- The member `malloc_need_resize()`: asks the system for `next_size` chunks, once more for half
of that when the first request fails and `next_size > 4`, and gives up with a null result. -/
def boost_malloc_need_resize (p : BoostPool) (s : BoostSys) : Nat × BoostPool × BoostSys :=
  match sys_malloc s p.next_size with
  | some (base, s1) => ((boost_grow p p.next_size base).1, (boost_grow p p.next_size base).2, s1)
  | none =>
    if 4 < p.next_size then
      match sys_malloc s (p.next_size / 2) with
      | some (base, s1) =>
        ((boost_grow p (p.next_size / 2) base).1, (boost_grow p (p.next_size / 2) base).2, s1)
      | none => (0, { p with next_size := p.next_size / 2 }, s)
    else (0, p, s)

/-- The member `malloc()`. -/
def boost_malloc (p : BoostPool) (s : BoostSys) : Nat × BoostPool × BoostSys :=
  match p.first with
  | [] => boost_malloc_need_resize p s
  | c :: rest => (c, { p with first := rest }, s)

/-- The member `simple_segregated_storage::malloc_n(n)` for `n > 0`: the first run of `n` free
chunks that follow each other both in the free list and in memory, taken out of the list. -/
def malloc_n : List Nat → Nat → Option (Nat × List Nat)
  | [], _ => none
  | c :: rest, n =>
    if (c :: rest).take n = List.range' c n then some (c, (c :: rest).drop n)
    else
      match malloc_n rest n with
      | none => none
      | some (r, rest1) => some (r, c :: rest1)

/-- A new block of `k` chunks at `base` for `ordered_malloc(n)`: the chunks after the first `n` go
into the ordered free list, `next_size` doubles, and the block is handed out. -/
def boost_grow_ordered (p : BoostPool) (n k base : Nat) : Nat × BoostPool :=
  (base, { p with next_size := 2 * k, list := insert_block p.list (base, k),
                  first := if n < k then add_ordered_block p.first (base + n) (k - n)
                           else p.first })

/-- The member `ordered_malloc(n)`: null for `n = 0`; a run from the free list when there is one;
otherwise a new block of `max(next_size, n)` chunks, with a second, smaller request when the system
refuses the first. -/
def boost_ordered_malloc (p : BoostPool) (s : BoostSys) (n : Nat) : Nat × BoostPool × BoostSys :=
  if n = 0 then (0, p, s)
  else
    match malloc_n p.first n with
    | some (r, rest) => (r, { p with first := rest }, s)
    | none =>
      match sys_malloc s (max p.next_size n) with
      | some (base, s1) =>
        ((boost_grow_ordered p n (max p.next_size n) base).1,
         (boost_grow_ordered p n (max p.next_size n) base).2, s1)
      | none =>
        if n < max p.next_size n then
          match sys_malloc s (max (max p.next_size n / 2) n) with
          | some (base, s1) =>
            ((boost_grow_ordered p n (max (max p.next_size n / 2) n) base).1,
             (boost_grow_ordered p n (max (max p.next_size n / 2) n) base).2, s1)
          | none => (0, { p with next_size := max (max p.next_size n / 2) n }, s)
        else (0, { p with next_size := max p.next_size n }, s)

/-- The member `free(chunk)`: the chunk becomes the head of the free list. -/
def boost_free (p : BoostPool) (chunk : Nat) : BoostPool :=
  { p with first := chunk :: p.first }

/-- The member `ordered_free(chunks, n)`: the `n` chunks go into the ordered free list. -/
def boost_ordered_free (p : BoostPool) (chunks : Nat) (n : Nat) : BoostPool :=
  { p with first := add_ordered_block p.first chunks n }

/-- The member `purge_memory()`: every block goes back to the system, whether or not chunks of it
are handed out; the block list and the free list become empty. A pool without blocks is left as it
is. -/
def boost_purge_memory (p : BoostPool) (s : BoostSys) : BoostPool × BoostSys :=
  match p.list with
  | [] => (p, s)
  | _ :: _ =>
    ({ p with next_size := p.start_size, list := [], first := [] },
     p.list.foldl (fun s1 b => sys_free s1 b.2) s)

/-- The destructor `~pool()` behind `delete`: purges, then gives back the pool object. -/
def boost_delete (p : BoostPool) (s : BoostSys) : BoostSys :=
  let s1 := (boost_purge_memory p s).2
  { s1 with avail := s1.avail + 1 }

/-- The policy `boost::pool<>`. -/
def boostPool : PoolPolicy where
  Pool := BoostPool
  Sys := BoostSys
  new_pool := boost_new
  tss_reset_ok := fun s => decide (0 < s.avail)
  delete_pool := boost_delete
  malloc := boost_malloc
  ordered_malloc := boost_ordered_malloc
  free := boost_free
  ordered_free := boost_ordered_free
  is_from := boost_is_from
  purge_memory := boost_purge_memory

/-- A pooled type of size 1 whose default constructor never throws. -/
def plainType : ChunkType where
  sizeof := 1
  ctor_ok := fun _ _ => true

/-- A pooled type of size 1 whose default constructor always throws. -/
def throwingType : ChunkType where
  sizeof := 1
  ctor_ok := fun _ _ => false

/-- The process at start: no thread has a pool, the system has `avail` chunks of memory. -/
def initWorld (avail : Nat) : World boostPool where
  tss := fun _ => none
  sys := { brk := 0, avail := avail }
  log := []

/-- How often the destructor has run on the object at `addr`. -/
def dtor_calls (log : List Event) (addr : Nat) : Nat := log.count (Event.dtor addr)

/-! ## States used as examples -/

/-- The state in which thread 0 has created one object (at address 1) and thread 1 has created one
object of its own (at address 34), each from its own pool. -/
def twoThreads : World boostPool :=
  (Create boostPool plainType (Create boostPool plainType (initWorld 1000) 0).2 1).2

/-- The pool of thread 1 in `twoThreads`. -/
def twoThreads_pool1 : BoostPool :=
  { requested_size := 1, next_size := 64, start_size := 32, list := [(34, 32)],
    first := List.range' 35 31 }

/-- The state in which thread 0 has created one object, at address 1. -/
def oneObject : World boostPool := (Create boostPool plainType (initWorld 1000) 0).2

/-- The pool of thread 0 in `oneObject`. -/
def oneObject_pool0 : BoostPool :=
  { requested_size := 1, next_size := 64, start_size := 32, list := [(1, 32)],
    first := List.range' 2 31 }

/-! ## What the manager relies on from its policy -/

/-- The contract between the manager and a pool policy, relative to a well-formedness condition
`wf` on a pool and the system allocator behind it, and to the policy's notion `allocated` of a
chunk that is handed out and not yet returned:
a new pool is well formed and has nothing allocated; a non-null chunk returned by `malloc` or
`ordered_malloc` passes `is_from`; a failed request leaves the allocated chunks as they were; a
successful `malloc` adds exactly the returned chunk, which was not allocated before, and a
successful `ordered_malloc(n)` exactly the `n` chunks from the returned address, none of which was
allocated before; `free` takes away exactly the chunk it is given and `ordered_free` the `n` chunks
it is given; no request or return makes the pool forget a chunk it recognised; and a pool has
finitely many chunks allocated. -/
structure PolicyContract (P : PoolPolicy) (wf : P.Pool → P.Sys → Prop)
    (allocated : P.Pool → Nat → Prop) : Prop where
  new_pool_wf : ∀ sz s p s1, P.new_pool sz s = some (p, s1) → wf p s1
  new_pool_allocated : ∀ sz s p s1, P.new_pool sz s = some (p, s1) → ∀ a, ¬ allocated p a
  malloc_owns : ∀ p s, wf p s → (P.malloc p s).1 ≠ 0 →
    P.is_from (P.malloc p s).2.1 (P.malloc p s).1 = true
  ordered_malloc_owns : ∀ p s n, wf p s → (P.ordered_malloc p s n).1 ≠ 0 →
    P.is_from (P.ordered_malloc p s n).2.1 (P.ordered_malloc p s n).1 = true
  malloc_null : ∀ p s, wf p s → (P.malloc p s).1 = 0 →
    ∀ a, allocated (P.malloc p s).2.1 a ↔ allocated p a
  ordered_malloc_null : ∀ p s n, wf p s → (P.ordered_malloc p s n).1 = 0 →
    ∀ a, allocated (P.ordered_malloc p s n).2.1 a ↔ allocated p a
  malloc_allocated : ∀ p s, wf p s → (P.malloc p s).1 ≠ 0 →
    ∀ a, allocated (P.malloc p s).2.1 a ↔ (allocated p a ∨ a = (P.malloc p s).1)
  malloc_fresh : ∀ p s, wf p s → (P.malloc p s).1 ≠ 0 → ¬ allocated p (P.malloc p s).1
  ordered_malloc_allocated : ∀ p s n, wf p s → (P.ordered_malloc p s n).1 ≠ 0 →
    ∀ a, allocated (P.ordered_malloc p s n).2.1 a ↔
      (allocated p a ∨ ((P.ordered_malloc p s n).1 ≤ a ∧ a < (P.ordered_malloc p s n).1 + n))
  ordered_malloc_fresh : ∀ p s n, wf p s → (P.ordered_malloc p s n).1 ≠ 0 →
    ∀ a, (P.ordered_malloc p s n).1 ≤ a → a < (P.ordered_malloc p s n).1 + n → ¬ allocated p a
  free_allocated : ∀ p c a, allocated (P.free p c) a ↔ (allocated p a ∧ a ≠ c)
  ordered_free_allocated : ∀ p c n a,
    allocated (P.ordered_free p c n) a ↔ (allocated p a ∧ ¬ (c ≤ a ∧ a < c + n))
  is_from_malloc : ∀ p s a, P.is_from p a = true → P.is_from (P.malloc p s).2.1 a = true
  is_from_ordered_malloc : ∀ p s n a, P.is_from p a = true →
    P.is_from (P.ordered_malloc p s n).2.1 a = true
  is_from_free : ∀ p c a, P.is_from p a = true → P.is_from (P.free p c) a = true
  is_from_ordered_free : ∀ p c n a, P.is_from p a = true →
    P.is_from (P.ordered_free p c n) a = true
  allocated_finite : ∀ p, {a | allocated p a}.Finite

/-- Every bound pool is well formed with respect to the system allocator. -/
def WorldWF {P : PoolPolicy} (wf : P.Pool → P.Sys → Prop) (w : World P) : Prop :=
  ∀ t p, w.tss t = some p → wf p w.sys

/-- The chunk at `a` is allocated from the pool of thread `tid`. -/
def allocated_in {P : PoolPolicy} (allocated : P.Pool → Nat → Prop) (w : World P) (tid a : Nat) :
    Prop :=
  ∃ p, w.tss tid = some p ∧ allocated p a

/-! ## Well-formed pools and allocated chunks of `boost::pool<>` -/

/-- Well-formedness of a `boost::pool`: every chunk of the free list lies in a block of the pool
and occurs once, and every block starts above the null address and ends below the highest address
the system has handed out. -/
def boost_wf (p : BoostPool) (s : BoostSys) : Prop :=
  (∀ c ∈ p.first, boost_is_from p c = true) ∧ (∀ b ∈ p.list, 0 < b.1 ∧ b.1 + b.2 ≤ s.brk) ∧
    p.first.Nodup

instance (p : BoostPool) (s : BoostSys) : Decidable (boost_wf p s) := by
  unfold boost_wf
  infer_instance

/-- A chunk of a `boost::pool` is allocated when it lies in a block and is not in the free
list. -/
def boost_allocated (p : BoostPool) (a : Nat) : Prop :=
  boost_is_from p a = true ∧ a ∉ p.first

instance (p : BoostPool) (a : Nat) : Decidable (boost_allocated p a) := by
  unfold boost_allocated
  infer_instance

/-! ## Sequences of calls -/

/-- A call of one of the manager's operations by a thread. -/
inductive Op where
  | create (tid : Nat)
  | createN (tid : Nat) (count : Int)
  | destroy (tid : Nat) (ptr : Nat)
  | destroyN (tid : Nat) (ptr : Nat) (count : Int)
  | purge (tid : Nat)
  | release (tid : Nat)
  deriving DecidableEq, Repr

/-- The state after one call. -/
def step (P : PoolPolicy) (T : ChunkType) (w : World P) : Op → World P
  | Op.create tid => (Create P T w tid).2
  | Op.createN tid count => (CreateN P T w tid count).2
  | Op.destroy tid ptr => (Destroy P T w tid ptr).2
  | Op.destroyN tid ptr count => (DestroyN P T w tid ptr count).2
  | Op.purge tid => (PurgeMemory P T w tid).2
  | Op.release tid => ReleaseMemoryPool P w tid

/-- The state after a sequence of calls, in order. -/
def run (P : PoolPolicy) (T : ChunkType) (w : World P) (ops : List Op) : World P :=
  ops.foldl (step P T) w

/-- Whether the call is a purge or a release by thread `tid`. -/
def Op.drops (tid : Nat) : Op → Bool
  | Op.purge t => t == tid
  | Op.release t => t == tid
  | _ => false

/-- The pool of thread `tid` recognises `ptr`. -/
def owned (P : PoolPolicy) (w : World P) (tid ptr : Nat) : Prop :=
  ∃ p, w.tss tid = some p ∧ P.is_from p ptr = true

/-- Calls made after thread 0 created its object: thread 0 creates more objects and destroys one
of them, thread 1 creates an array, purges and releases. -/
def laterCalls : List Op :=
  [Op.create 0, Op.create 0, Op.destroy 0 3, Op.createN 1 4, Op.purge 1, Op.createN 0 40,
   Op.release 1]

/-- The state after thread 0 has created five objects; they lie at the addresses 1 to 5. -/
def fiveObjects : World boostPool :=
  run boostPool plainType (initWorld 1000)
    [Op.create 0, Op.create 0, Op.create 0, Op.create 0, Op.create 0]

/-! ## The state after a release -/

/-- The state after thread 0 has created one object and then released its pool. -/
def released : World boostPool := ReleaseMemoryPool boostPool oneObject 0

/-- The pool `new pool_type(sizeof(chunk_type))` makes for a `chunk_type` of size 1. -/
def freshPool : BoostPool :=
  { requested_size := 1, next_size := 32, start_size := 32, list := [], first := [] }

/-! ## The invariant of the process with `boost::pool<>` -/

/-- No address is recognised by the pools of two different threads. -/
def PoolsDisjoint (w : World boostPool) : Prop :=
  ∀ t t1 p p1, t ≠ t1 → w.tss t = some p → w.tss t1 = some p1 →
    ∀ a, boost_is_from p a = true → boost_is_from p1 a = false

/-- The invariant of the process: every pool is well formed and the pools of different threads
share no address. -/
def boost_inv (w : World boostPool) : Prop :=
  WorldWF boost_wf w ∧ PoolsDisjoint w

/-- A call that keeps to the caller's side of the interface: a pointer passed to `Destroy(ptr)`
that the caller's pool recognises is still allocated, and a pointer and count passed to
`Destroy(ptr, count)` denote chunks that are all still allocated. -/
def respects (w : World boostPool) : Op → Prop
  | Op.destroy tid ptr =>
    ∀ p, w.tss tid = some p → boost_is_from p ptr = true → boost_allocated p ptr
  | Op.destroyN tid ptr count =>
    ∀ p, w.tss tid = some p → boost_is_from p ptr = true →
      ∀ a, ptr ≤ a → a < ptr + int_to_size count → boost_allocated p a
  | _ => True

/-- Every call of the sequence keeps to the caller's side of the interface in the state it is made
in. -/
def respects_all (T : ChunkType) : World boostPool → List Op → Prop
  | _, [] => True
  | w, op :: rest => respects w op ∧ respects_all T (step boostPool T w op) rest

/-! # Properties -/

/-! ## Basic facts about the manager -/

theorem GetMemoryPool_bound (P : PoolPolicy) (T : ChunkType) (w : World P) (tid : Nat)
    (mem_pool : P.Pool) (h : w.tss tid = some mem_pool) :
    GetMemoryPool P T w tid = (some mem_pool, w) := by
  simp [GetMemoryPool, h]

theorem world_update_self (P : PoolPolicy) (w : World P) (tid : Nat) (v : Option P.Pool)
    (h : w.tss tid = v) : ({ w with tss := Function.update w.tss tid v } : World P) = w := by
  subst h
  rw [Function.update_eq_self]

theorem GetMemoryPool_fail (P : PoolPolicy) (T : ChunkType) (w : World P) (tid : Nat)
    (h : w.tss tid = none) (hnew : P.new_pool T.sizeof w.sys = none) :
    GetMemoryPool P T w tid = (none, w) := by
  simp only [GetMemoryPool, h, hnew]
  rw [world_update_self P w tid none h]

theorem GetMemoryPool_bind_fail (P : PoolPolicy) (T : ChunkType) (w : World P) (tid : Nat)
    (p0 : P.Pool) (s1 : P.Sys) (h : w.tss tid = none)
    (hnew : P.new_pool T.sizeof w.sys = some (p0, s1)) (hb : P.tss_reset_ok s1 = false) :
    GetMemoryPool P T w tid =
      (none, { w with tss := Function.update w.tss tid none, sys := P.delete_pool p0 s1 }) := by
  simp [GetMemoryPool, h, hnew, hb]

theorem GetMemoryPool_fresh (P : PoolPolicy) (T : ChunkType) (w : World P) (tid : Nat)
    (p0 : P.Pool) (s1 : P.Sys) (h : w.tss tid = none)
    (hnew : P.new_pool T.sizeof w.sys = some (p0, s1)) (hb : P.tss_reset_ok s1 = true) :
    GetMemoryPool P T w tid =
      (some p0, { w with tss := Function.update w.tss tid (some p0), sys := s1 }) := by
  simp [GetMemoryPool, h, hnew, hb]

/-- The outcomes of `GetMemoryPool()`: the bound pool, a new pool, or no pool, because the pool
could not be constructed or could not be bound. -/
theorem GetMemoryPool_cases (P : PoolPolicy) (T : ChunkType) (w : World P) (tid : Nat) :
    (∃ p, w.tss tid = some p ∧ GetMemoryPool P T w tid = (some p, w)) ∨
    (∃ p0 s1, w.tss tid = none ∧ P.new_pool T.sizeof w.sys = some (p0, s1) ∧
      P.tss_reset_ok s1 = true ∧
      GetMemoryPool P T w tid =
        (some p0, { w with tss := Function.update w.tss tid (some p0), sys := s1 })) ∨
    (w.tss tid = none ∧ P.new_pool T.sizeof w.sys = none ∧
      GetMemoryPool P T w tid = (none, w)) ∨
    (∃ p0 s1, w.tss tid = none ∧ P.new_pool T.sizeof w.sys = some (p0, s1) ∧
      P.tss_reset_ok s1 = false ∧
      GetMemoryPool P T w tid =
        (none, { w with tss := Function.update w.tss tid none,
                        sys := P.delete_pool p0 s1 })) := by
  cases h : w.tss tid with
  | some p => exact Or.inl ⟨p, rfl, GetMemoryPool_bound P T w tid p h⟩
  | none =>
    cases hnew : P.new_pool T.sizeof w.sys with
    | none => exact Or.inr (Or.inr (Or.inl ⟨rfl, rfl, GetMemoryPool_fail P T w tid h hnew⟩))
    | some r =>
      obtain ⟨p0, s1⟩ := r
      cases hb : P.tss_reset_ok s1 with
      | true =>
        exact Or.inr (Or.inl ⟨p0, s1, rfl, rfl, hb,
          GetMemoryPool_fresh P T w tid p0 s1 h hnew hb⟩)
      | false =>
        exact Or.inr (Or.inr (Or.inr ⟨p0, s1, rfl, rfl, hb,
          GetMemoryPool_bind_fail P T w tid p0 s1 h hnew hb⟩))

theorem GetMemoryPool_none_iff (P : PoolPolicy) (T : ChunkType) (w : World P) (tid : Nat) :
    (GetMemoryPool P T w tid).1 = none ↔
      w.tss tid = none ∧
        (P.new_pool T.sizeof w.sys = none ∨
          ∃ p0 s1, P.new_pool T.sizeof w.sys = some (p0, s1) ∧ P.tss_reset_ok s1 = false) := by
  rcases GetMemoryPool_cases P T w tid with
    ⟨p, hp, hG⟩ | ⟨p0, s1, hp, hnew, hb, hG⟩ | ⟨hp, hnew, hG⟩ | ⟨p0, s1, hp, hnew, hb, hG⟩
  · simp [hG, hp]
  · simp [hG, hp, hnew, hb]
  · simp [hG, hp, hnew]
  · simp only [hG, hp, hnew, true_and]
    exact ⟨fun _ => Or.inr ⟨p0, s1, rfl, hb⟩, fun _ => trivial⟩

theorem GetMemoryPool_log (P : PoolPolicy) (T : ChunkType) (w : World P) (tid : Nat) :
    (GetMemoryPool P T w tid).2.log = w.log := by
  rcases GetMemoryPool_cases P T w tid with
    ⟨p, hp, hG⟩ | ⟨p0, s1, hp, hnew, hb, hG⟩ | ⟨hp, hnew, hG⟩ | ⟨p0, s1, hp, hnew, hb, hG⟩ <;>
  rw [hG]

theorem GetMemoryPool_other (P : PoolPolicy) (T : ChunkType) (w : World P) (tid t : Nat)
    (ht : t ≠ tid) : (GetMemoryPool P T w tid).2.tss t = w.tss t := by
  rcases GetMemoryPool_cases P T w tid with
    ⟨p, hp, hG⟩ | ⟨p0, s1, hp, hnew, hb, hG⟩ | ⟨hp, hnew, hG⟩ | ⟨p0, s1, hp, hnew, hb, hG⟩ <;>
  rw [hG] <;> simp [Function.update_noteq ht]

theorem GetMemoryPool_slot (P : PoolPolicy) (T : ChunkType) (w : World P) (tid : Nat) :
    (GetMemoryPool P T w tid).2.tss tid = (GetMemoryPool P T w tid).1 := by
  rcases GetMemoryPool_cases P T w tid with
    ⟨p, hp, hG⟩ | ⟨p0, s1, hp, hnew, hb, hG⟩ | ⟨hp, hnew, hG⟩ | ⟨p0, s1, hp, hnew, hb, hG⟩ <;>
  rw [hG] <;> simp [hp]

/-! ## Destroying a null pointer (C4) -/

/-- C4: `Destroy(NULL)` and `Destroy(NULL, count)` return `kSuccess` (0) from every state and for
every count, and the state after the call is the state before it: every thread's slot, bound or
not, every pool, the system allocator and the record of constructor and destructor calls are the
same, so no pool is created. -/
theorem Destroy_null_is_noop (P : PoolPolicy) (T : ChunkType) (w : World P) (tid : Nat)
    (count : Int) :
    Destroy P T w tid 0 = (kSuccess, w) ∧ DestroyN P T w tid 0 count = (kSuccess, w) ∧
      kSuccess = 0 := by
  refine ⟨?_, ?_, rfl⟩
  · simp [Destroy]
  · simp [DestroyN]

/-! ## Destroying on a thread without a pool (C2) -/

/-- C2 fails as stated: in the initial state thread 0 has no pool, and `Destroy(5)` and
`Destroy(5, 3)` return `kFromElse` (-3), not `kNoMemPool` (-2), because `GetMemoryPool` creates and
binds a pool before the ownership test. -/
theorem Destroy_unbound_counterexample :
    (initWorld 1000).tss 0 = none ∧ (5 : Nat) ≠ 0 ∧
    (Destroy boostPool plainType (initWorld 1000) 0 5).1 = -3 ∧
    (DestroyN boostPool plainType (initWorld 1000) 0 5 3).1 = -3 ∧
    (Destroy boostPool plainType (initWorld 1000) 0 5).1 ≠ kNoMemPool ∧
    ((Destroy boostPool plainType (initWorld 1000) 0 5).2.tss 0).isSome = true := by
  refine ⟨rfl, by decide, rfl, rfl, ?_, rfl⟩
  have h : (Destroy boostPool plainType (initWorld 1000) 0 5).1 = -3 := rfl
  rw [h]
  decide

theorem Destroy_kNoMemPool_iff (P : PoolPolicy) (T : ChunkType) (w : World P) (tid ptr : Nat)
    (count : Int) (hptr : ptr ≠ 0) :
    ((Destroy P T w tid ptr).1 = kNoMemPool ↔ (GetMemoryPool P T w tid).1 = none) ∧
    ((DestroyN P T w tid ptr count).1 = kNoMemPool ↔ (GetMemoryPool P T w tid).1 = none) := by
  unfold Destroy DestroyN
  simp only [hptr, if_false]
  rcases hG : GetMemoryPool P T w tid with ⟨_ | q, w1⟩
  · simp
  · by_cases hf : P.is_from q ptr = false
    · simp [hf, kFromElse, kNoMemPool]
    · simp [hf, kSuccess, kNoMemPool]

/-- C2, amended: when the calling thread has no pool bound, `Destroy(ptr)` and
`Destroy(ptr, count)` on a non-null pointer first try to create and bind a pool; they return
`kNoMemPool` (-2) exactly when `GetMemoryPool()` returns null, that is when the pool cannot be
constructed or cannot be bound; when the construction fails the state is unchanged; when the pool
is constructed and bound the result is `kFromElse` if the new pool does not recognise `ptr`. -/
theorem Destroy_unbound (P : PoolPolicy) (T : ChunkType) (w : World P) (tid ptr : Nat)
    (count : Int) (hptr : ptr ≠ 0) (hslot : w.tss tid = none) :
    ((Destroy P T w tid ptr).1 = kNoMemPool ↔ (GetMemoryPool P T w tid).1 = none) ∧
    ((DestroyN P T w tid ptr count).1 = kNoMemPool ↔ (GetMemoryPool P T w tid).1 = none) ∧
    ((GetMemoryPool P T w tid).1 = none ↔
      (P.new_pool T.sizeof w.sys = none ∨
        ∃ p0 s1, P.new_pool T.sizeof w.sys = some (p0, s1) ∧ P.tss_reset_ok s1 = false)) ∧
    (P.new_pool T.sizeof w.sys = none →
      Destroy P T w tid ptr = (kNoMemPool, w) ∧ DestroyN P T w tid ptr count = (kNoMemPool, w)) ∧
    (∀ p0 s1, P.new_pool T.sizeof w.sys = some (p0, s1) → P.tss_reset_ok s1 = true →
      P.is_from p0 ptr = false →
      Destroy P T w tid ptr =
        (kFromElse, { w with tss := Function.update w.tss tid (some p0), sys := s1 }) ∧
      DestroyN P T w tid ptr count =
        (kFromElse, { w with tss := Function.update w.tss tid (some p0), sys := s1 })) ∧
    kNoMemPool = -2 := by
  have hiff := Destroy_kNoMemPool_iff P T w tid ptr count hptr
  refine ⟨hiff.1, hiff.2, ?_, ?_, ?_, rfl⟩
  · rw [GetMemoryPool_none_iff]
    simp [hslot]
  · intro hnew
    have hg := GetMemoryPool_fail P T w tid hslot hnew
    simp [Destroy, DestroyN, hptr, hg]
  · intro p0 s1 hnew hb hf
    have hg := GetMemoryPool_fresh P T w tid p0 s1 hslot hnew hb
    simp [Destroy, DestroyN, hptr, hg, hf]

/-- On a thread without a pool in a process with memory left, `Destroy(5)` returns `kNoMemPool`
only if `GetMemoryPool()` returns null (it does not); in a process without memory left the pool
cannot be constructed and `Destroy(5)` returns `kNoMemPool` and changes nothing. -/
theorem Destroy_unbound_witness :
    ((Destroy boostPool plainType (initWorld 1000) 0 5).1 = kNoMemPool ↔
      (GetMemoryPool boostPool plainType (initWorld 1000) 0).1 = none) ∧
    Destroy boostPool plainType (initWorld 0) 0 5 = (kNoMemPool, initWorld 0) :=
  ⟨(Destroy_unbound boostPool plainType (initWorld 1000) 0 5 3 (by decide) rfl).1,
   ((Destroy_unbound boostPool plainType (initWorld 0) 0 5 3 (by decide) rfl).2.2.2.1 rfl).1⟩

/-! ## Destructors (C3) -/

/-- C3 fails as stated: thread 0 creates an object at address 1, its pool owns the pointer, and
`Destroy(1)` returns `kSuccess` and puts chunk 1 at the head of the free list, but the destructor
has run zero times on the object, not once. -/
theorem Destroy_destructor_counterexample :
    (Create boostPool plainType (initWorld 1000) 0).1 = 1 ∧
    (oneObject.tss 0).map (fun p => boostPool.is_from p 1) = some true ∧
    (Destroy boostPool plainType oneObject 0 1).1 = kSuccess ∧
    ((Destroy boostPool plainType oneObject 0 1).2.tss 0).map (fun p => p.first.head?) =
      some (some 1) ∧
    (Destroy boostPool plainType oneObject 0 1).2.log = [Event.ctor 1] ∧
    dtor_calls (Destroy boostPool plainType oneObject 0 1).2.log 1 = 0 ∧
    dtor_calls (Destroy boostPool plainType oneObject 0 1).2.log 1 ≠
      dtor_calls oneObject.log 1 + 1 := by
  refine ⟨rfl, rfl, rfl, rfl, rfl, rfl, ?_⟩
  have h1 : dtor_calls (Destroy boostPool plainType oneObject 0 1).2.log 1 = 0 := rfl
  have h2 : dtor_calls oneObject.log 1 = 0 := rfl
  rw [h1, h2]
  decide

/-- Every `Destroy`, successful or not, leaves the record of constructor and destructor calls as it
was. -/
theorem Destroy_log (P : PoolPolicy) (T : ChunkType) (w : World P) (tid ptr : Nat) (count : Int) :
    (Destroy P T w tid ptr).2.log = w.log ∧ (DestroyN P T w tid ptr count).2.log = w.log := by
  have hg := GetMemoryPool_log P T w tid
  constructor
  · unfold Destroy
    by_cases hptr : ptr = 0
    · simp [hptr]
    · simp only [hptr, if_false]
      rcases hG : GetMemoryPool P T w tid with ⟨_ | q, w1⟩
      · rw [hG] at hg; simpa using hg
      · rw [hG] at hg
        by_cases hf : P.is_from q ptr = false
        · simpa [hf] using hg
        · simpa [hf] using hg
  · unfold DestroyN
    by_cases hptr : ptr = 0
    · simp [hptr]
    · simp only [hptr, if_false]
      rcases hG : GetMemoryPool P T w tid with ⟨_ | q, w1⟩
      · rw [hG] at hg; simpa using hg
      · rw [hG] at hg
        by_cases hf : P.is_from q ptr = false
        · simpa [hf] using hg
        · simpa [hf] using hg

/-- C3, amended: for every non-null pointer `ptr` that the calling thread's pool owns,
`Destroy(ptr)` returns `kSuccess` and returns the chunk to the pool with `free`, and
`Destroy(ptr, count)` does so with `ordered_free`; neither invokes the destructor: the record of
constructor and destructor calls is the same after the call as before. The same holds of the
record for every `Destroy` in every state, successful or not. -/
theorem Destroy_owned (P : PoolPolicy) (T : ChunkType) (w : World P) (tid ptr : Nat)
    (count : Int) (mem_pool : P.Pool) (hptr : ptr ≠ 0) (hslot : w.tss tid = some mem_pool)
    (hfrom : P.is_from mem_pool ptr = true) :
    Destroy P T w tid ptr =
      (kSuccess, { w with tss := Function.update w.tss tid (some (P.free mem_pool ptr)) }) ∧
    DestroyN P T w tid ptr count =
      (kSuccess, { w with
        tss := Function.update w.tss tid (some (P.ordered_free mem_pool ptr (int_to_size count))) }) ∧
    (Destroy P T w tid ptr).2.log = w.log ∧
    (DestroyN P T w tid ptr count).2.log = w.log ∧
    dtor_calls (Destroy P T w tid ptr).2.log ptr = dtor_calls w.log ptr ∧
    dtor_calls (DestroyN P T w tid ptr count).2.log ptr = dtor_calls w.log ptr ∧
    (∀ (v : World P) (t q : Nat) (c : Int),
      (Destroy P T v t q).2.log = v.log ∧ (DestroyN P T v t q c).2.log = v.log) := by
  have h1 : Destroy P T w tid ptr =
      (kSuccess, { w with tss := Function.update w.tss tid (some (P.free mem_pool ptr)) }) := by
    simp [Destroy, hptr, GetMemoryPool_bound P T w tid mem_pool hslot, hfrom]
  have h2 : DestroyN P T w tid ptr count =
      (kSuccess, { w with
        tss := Function.update w.tss tid (some (P.ordered_free mem_pool ptr (int_to_size count))) }) := by
    simp [DestroyN, hptr, GetMemoryPool_bound P T w tid mem_pool hslot, hfrom]
  refine ⟨h1, h2, ?_, ?_, ?_, ?_, fun v t q c => Destroy_log P T v t q c⟩ <;> simp [h1, h2]

/-- The object created by thread 0 is destroyed by thread 0: success, and no destructor call is
recorded. -/
theorem Destroy_owned_witness :
    (Destroy boostPool plainType oneObject 0 1).1 = kSuccess ∧
    dtor_calls (Destroy boostPool plainType oneObject 0 1).2.log 1 = dtor_calls oneObject.log 1 :=
  have h := Destroy_owned boostPool plainType oneObject 0 1 1 oneObject_pool0 (by decide) rfl rfl
  ⟨by rw [h.1], h.2.2.2.2.1⟩

/-! ## Purging (C7) -/

/-- C7 fails as stated: thread 0 creates an object at address 1; `PurgeMemory()` returns
`kSuccess` and keeps a pool bound, but `purge_memory` of `boost::pool` gives every block back, the
one holding the live object included, so the pool no longer owns the pointer and a later
`Destroy(1)` returns `kFromElse`. -/
theorem PurgeMemory_counterexample :
    (Create boostPool plainType (initWorld 1000) 0).1 = 1 ∧
    (oneObject.tss 0).map (fun p => boostPool.is_from p 1) = some true ∧
    (PurgeMemory boostPool plainType oneObject 0).1 = kSuccess ∧
    ((PurgeMemory boostPool plainType oneObject 0).2.tss 0).map
      (fun p => boostPool.is_from p 1) = some false ∧
    (Destroy boostPool plainType (PurgeMemory boostPool plainType oneObject 0).2 0 1).1 =
      kFromElse ∧
    (Destroy boostPool plainType (PurgeMemory boostPool plainType oneObject 0).2 0 1).1 ≠
      kSuccess := by
  refine ⟨rfl, rfl, rfl, rfl, rfl, ?_⟩
  have h : (Destroy boostPool plainType (PurgeMemory boostPool plainType oneObject 0).2 0 1).1 =
      kFromElse := rfl
  rw [h]
  decide

theorem boost_purge_memory_forgets (p : BoostPool) (s : BoostSys) (a : Nat) :
    boost_is_from (boost_purge_memory p s).1 a = false := by
  unfold boost_purge_memory
  cases hl : p.list with
  | nil => simp [boost_is_from, hl]
  | cons b rest => simp [boost_is_from]

/-- With `boost::pool<>`, after `PurgeMemory()` on a thread that has a pool, `Destroy` of any
non-null pointer on that thread returns `kFromElse`. -/
theorem boost_Destroy_after_purge (T : ChunkType) (v : World boostPool) (t q : Nat)
    (p : BoostPool) (hq : q ≠ 0) (hp : v.tss t = some p) :
    (Destroy boostPool T (PurgeMemory boostPool T v t).2 t q).1 = kFromElse := by
  have hP : PurgeMemory boostPool T v t =
      (kSuccess, { v with tss := Function.update v.tss t (some (boost_purge_memory p v.sys).1),
                          sys := (boost_purge_memory p v.sys).2 }) := by
    simp [PurgeMemory, GetMemoryPool_bound boostPool T v t p hp]
    exact ⟨rfl, rfl⟩
  rw [hP]
  have hf : boostPool.is_from (boost_purge_memory p v.sys).1 q = false :=
    boost_purge_memory_forgets p v.sys q
  simp [Destroy, hq, GetMemoryPool, hf]

/-- C7, amended: in every state in which the calling thread has a pool, `PurgeMemory()` returns
`kSuccess`, the thread's slot still holds its pool, now in the state the policy's `purge_memory`
leaves it in, the slots of the other threads are unchanged, and no constructor or destructor
runs; a later `Destroy` of a non-null pointer returns `kSuccess` exactly when the purged pool
still recognises the pointer. With `boost::pool<>` it recognises none: the later `Destroy`
returns `kFromElse`, whichever pointer it is given. -/
theorem PurgeMemory_bound (P : PoolPolicy) (T : ChunkType) (w : World P) (tid ptr : Nat)
    (mem_pool : P.Pool) (hptr : ptr ≠ 0) (hslot : w.tss tid = some mem_pool) :
    (PurgeMemory P T w tid).1 = kSuccess ∧
    (PurgeMemory P T w tid).2.tss tid = some (P.purge_memory mem_pool w.sys).1 ∧
    (∀ t, t ≠ tid → (PurgeMemory P T w tid).2.tss t = w.tss t) ∧
    (PurgeMemory P T w tid).2.log = w.log ∧
    ((Destroy P T (PurgeMemory P T w tid).2 tid ptr).1 = kSuccess ↔
      P.is_from (P.purge_memory mem_pool w.sys).1 ptr = true) ∧
    (∀ (T1 : ChunkType) (v : World boostPool) (t q : Nat) (p : BoostPool), q ≠ 0 →
      v.tss t = some p →
      (Destroy boostPool T1 (PurgeMemory boostPool T1 v t).2 t q).1 = kFromElse) := by
  have hp : PurgeMemory P T w tid =
      (kSuccess, { w with tss := Function.update w.tss tid (some (P.purge_memory mem_pool w.sys).1),
                          sys := (P.purge_memory mem_pool w.sys).2 }) := by
    simp [PurgeMemory, GetMemoryPool_bound P T w tid mem_pool hslot]
  have hs : (PurgeMemory P T w tid).2.tss tid = some (P.purge_memory mem_pool w.sys).1 := by
    simp [hp]
  refine ⟨by simp [hp], hs, ?_, by simp [hp], ?_,
    fun T1 v t q p hq hv => boost_Destroy_after_purge T1 v t q p hq hv⟩
  · intro t ht
    simp [hp, Function.update_noteq ht]
  · have hg := GetMemoryPool_bound P T _ tid _ hs
    simp only [Destroy, hptr, if_false, hg]
    by_cases hf : P.is_from (P.purge_memory mem_pool w.sys).1 ptr = false
    · simp [hf, kFromElse, kSuccess]
    · simp [hf]

/-- Purging the pool of thread 0 while it holds one live object: success, the slot stays bound,
and the later `Destroy` succeeds exactly when the purged pool still owns the pointer (it does
not). -/
theorem PurgeMemory_bound_witness :
    (PurgeMemory boostPool plainType oneObject 0).1 = kSuccess ∧
    (PurgeMemory boostPool plainType oneObject 0).2.tss 0 =
      some (boostPool.purge_memory oneObject_pool0 oneObject.sys).1 :=
  have h := PurgeMemory_bound boostPool plainType oneObject 0 1 oneObject_pool0 (by decide) rfl
  ⟨h.1, h.2.1⟩

/-! ## Releasing (C9) -/

/-- C9: from every state, after `ReleaseMemoryPool()` the calling thread's slot is empty and the
slot of every other thread holds what it held; no constructor or destructor runs; a second release
changes nothing more; and when the slot was already empty the whole state is unchanged. -/
theorem ReleaseMemoryPool_unbinds (P : PoolPolicy) (w : World P) (tid : Nat) :
    (ReleaseMemoryPool P w tid).tss tid = none ∧
    (∀ t, t ≠ tid → (ReleaseMemoryPool P w tid).tss t = w.tss t) ∧
    (ReleaseMemoryPool P w tid).log = w.log ∧
    ReleaseMemoryPool P (ReleaseMemoryPool P w tid) tid = ReleaseMemoryPool P w tid ∧
    (w.tss tid = none → ReleaseMemoryPool P w tid = w) := by
  have h1 : (ReleaseMemoryPool P w tid).tss tid = none := by
    unfold ReleaseMemoryPool
    cases h : w.tss tid with
    | none => simp [h]
    | some p => simp
  have h5 : ∀ v : World P, v.tss tid = none → ReleaseMemoryPool P v tid = v := by
    intro v hv
    simp [ReleaseMemoryPool, hv]
  refine ⟨h1, ?_, ?_, h5 _ h1, h5 w⟩
  · intro t ht
    unfold ReleaseMemoryPool
    cases h : w.tss tid with
    | none => simp
    | some p => simp [Function.update_noteq ht]
  · unfold ReleaseMemoryPool
    cases h : w.tss tid with
    | none => simp
    | some p => simp

/-! ## Integer conversion -/

/-- An element count that is a positive `int` reaches the policy unchanged. -/
theorem int_to_size_small (n : Int) (h0 : 0 ≤ n) (h : n < 2 ^ 31) :
    int_to_size n = n.toNat := by
  unfold int_to_size
  rw [Int.emod_eq_of_lt h0 (by omega)]

/-! ## The contract for `boost::pool<>` -/

theorem boost_is_from_iff (p : BoostPool) (a : Nat) :
    boost_is_from p a = true ↔ ∃ b ∈ p.list, b.1 ≤ a ∧ a < b.1 + b.2 := by
  simp [boost_is_from]

theorem mem_add_ordered_block (first : List Nat) (block n a : Nat) :
    a ∈ add_ordered_block first block n ↔ a ∈ first ∨ (block ≤ a ∧ a < block + n) := by
  unfold add_ordered_block
  have h := List.takeWhile_append_dropWhile (fun c => decide (c ≤ block)) first
  have hm : a ∈ first ↔ a ∈ first.takeWhile (fun c => decide (c ≤ block)) ∨
      a ∈ first.dropWhile (fun c => decide (c ≤ block)) := by
    rw [← List.mem_append, h]
  rw [List.mem_append, List.mem_append, List.mem_range'_1, hm]
  tauto

theorem mem_insert_block (list : List (Nat × Nat)) (node x : Nat × Nat) :
    x ∈ insert_block list node ↔ x = node ∨ x ∈ list := by
  unfold insert_block
  have h := List.takeWhile_append_dropWhile (fun b : Nat × Nat => decide (b.1 ≤ node.1)) list
  have hm : x ∈ list ↔ x ∈ list.takeWhile (fun b : Nat × Nat => decide (b.1 ≤ node.1)) ∨
      x ∈ list.dropWhile (fun b : Nat × Nat => decide (b.1 ≤ node.1)) := by
    rw [← List.mem_append, h]
  rw [List.mem_append, List.mem_cons, hm]
  tauto

theorem sys_malloc_spec (s s1 : BoostSys) (k base : Nat)
    (h : sys_malloc s k = some (base, s1)) : base = s.brk + 1 ∧ s1.brk = s.brk + 1 + k := by
  unfold sys_malloc at h
  split at h
  · simp only [Option.some.injEq, Prod.mk.injEq] at h
    obtain ⟨h1, h2⟩ := h
    subst h2
    exact ⟨h1.symm, rfl⟩
  · cases h

/-- The outcomes of `malloc_need_resize`: a new block from the system, or a null result with at
most `next_size` changed. -/
theorem boost_malloc_need_resize_cases (p : BoostPool) (s : BoostSys) :
    (∃ k base s1, sys_malloc s k = some (base, s1) ∧
      boost_malloc_need_resize p s = ((boost_grow p k base).1, (boost_grow p k base).2, s1)) ∨
    (∃ ns, boost_malloc_need_resize p s = (0, { p with next_size := ns }, s)) := by
  unfold boost_malloc_need_resize
  cases h1 : sys_malloc s p.next_size with
  | some r =>
    obtain ⟨base, s1⟩ := r
    exact Or.inl ⟨_, base, s1, h1, rfl⟩
  | none =>
    by_cases h4 : 4 < p.next_size
    · simp only [h4, if_true]
      cases h2 : sys_malloc s (p.next_size / 2) with
      | some r =>
        obtain ⟨base, s1⟩ := r
        exact Or.inl ⟨_, base, s1, h2, rfl⟩
      | none => exact Or.inr ⟨_, rfl⟩
    · simp only [h4, if_false]
      exact Or.inr ⟨p.next_size, rfl⟩

/-- The outcomes of `ordered_malloc(n)` for `n > 0`: a run from the free list, a new block from
the system, or a null result with at most `next_size` changed. -/
theorem boost_ordered_malloc_cases (p : BoostPool) (s : BoostSys) (n : Nat) (hn : n ≠ 0) :
    (∃ r rest, malloc_n p.first n = some (r, rest) ∧
      boost_ordered_malloc p s n = (r, { p with first := rest }, s)) ∨
    (∃ k base s1, malloc_n p.first n = none ∧ n ≤ k ∧ sys_malloc s k = some (base, s1) ∧
      boost_ordered_malloc p s n =
        ((boost_grow_ordered p n k base).1, (boost_grow_ordered p n k base).2, s1)) ∨
    (∃ ns, boost_ordered_malloc p s n = (0, { p with next_size := ns }, s)) := by
  unfold boost_ordered_malloc
  simp only [hn, if_false]
  cases hm : malloc_n p.first n with
  | some r =>
    obtain ⟨r, rest⟩ := r
    refine Or.inl ⟨r, rest, ?_, ?_⟩
    · rfl
    · rfl
  | none =>
    right
    cases h1 : sys_malloc s (max p.next_size n) with
    | some r =>
      obtain ⟨base, s1⟩ := r
      exact Or.inl ⟨_, base, s1, by simp, le_max_right _ _, h1, rfl⟩
    | none =>
      by_cases h4 : n < max p.next_size n
      · simp only [h4, if_true]
        cases h2 : sys_malloc s (max (max p.next_size n / 2) n) with
        | some r =>
          obtain ⟨base, s1⟩ := r
          exact Or.inl ⟨_, base, s1, by simp, le_max_right _ _, h2, rfl⟩
        | none => exact Or.inr ⟨_, rfl⟩
      · simp only [h4, if_false]
        exact Or.inr ⟨_, rfl⟩

/-- The run `malloc_n` takes out of the free list: its chunks and the chunks left are the chunks
of the list, and the first chunk of the run was in the list. -/
theorem malloc_n_spec (n : Nat) :
    ∀ (first : List Nat) (r : Nat) (rest : List Nat), malloc_n first n = some (r, rest) →
      r ∈ first ∧ (∀ a, a ∈ first ↔ a ∈ rest ∨ (r ≤ a ∧ a < r + n)) ∧
      (first.Nodup → rest.Nodup ∧ ∀ a, r ≤ a → a < r + n → a ∉ rest) := by
  intro first
  induction first with
  | nil => intro r rest h; simp [malloc_n] at h
  | cons c tl ih =>
    intro r rest h
    unfold malloc_n at h
    by_cases hrun : (c :: tl).take n = List.range' c n
    · simp only [hrun, if_true, Option.some.injEq, Prod.mk.injEq] at h
      obtain ⟨h1, h2⟩ := h
      subst h1
      subst h2
      have hsplit := List.take_append_drop n (c :: tl)
      refine ⟨List.mem_cons_self _ _, ?_, ?_⟩
      · intro a
        have : a ∈ c :: tl ↔ a ∈ (c :: tl).take n ∨ a ∈ (c :: tl).drop n := by
          rw [← List.mem_append, hsplit]
        rw [this, hrun, List.mem_range'_1]
        tauto
      · intro hnd
        refine ⟨hnd.sublist (List.drop_sublist _ _), ?_⟩
        intro a h1 h2 hmem
        have hd := List.disjoint_take_drop hnd (le_refl n)
        have hin : a ∈ (c :: tl).take n := by
          rw [hrun, List.mem_range'_1]; exact ⟨h1, h2⟩
        exact hd hin hmem
    · simp only [hrun, if_false] at h
      cases hm : malloc_n tl n with
      | none => simp [hm] at h
      | some q =>
        obtain ⟨r1, rest1⟩ := q
        simp only [hm, Option.some.injEq, Prod.mk.injEq] at h
        obtain ⟨h1, h2⟩ := h
        subst h1
        subst h2
        obtain ⟨i1, i2, i3⟩ := ih r1 rest1 hm
        refine ⟨List.mem_cons_of_mem _ i1, ?_, ?_⟩
        · intro a
          rw [List.mem_cons, List.mem_cons, i2 a]
          tauto
        · intro hnd
          have hnd2 := List.nodup_cons.mp hnd
          obtain ⟨j1, j2⟩ := i3 hnd2.2
          refine ⟨List.nodup_cons.mpr ⟨?_, j1⟩, ?_⟩
          · intro hc
            exact hnd2.1 ((i2 c).mpr (Or.inl hc))
          · intro a h1 h2 hmem
            rcases List.mem_cons.mp hmem with h | h
            · subst h
              exact hnd2.1 ((i2 a).mpr (Or.inr ⟨h1, h2⟩))
            · exact j2 a h1 h2 h

theorem boost_allocated_congr (p q : BoostPool) (a : Nat)
    (hl : ∀ b, b ∈ q.list ↔ b ∈ p.list) (hf : ∀ c, c ∈ q.first ↔ c ∈ p.first) :
    boost_allocated q a ↔ boost_allocated p a := by
  unfold boost_allocated
  rw [boost_is_from_iff, boost_is_from_iff, hf a]
  constructor
  · rintro ⟨⟨b, hb, h⟩, h2⟩
    exact ⟨⟨b, (hl b).mp hb, h⟩, h2⟩
  · rintro ⟨⟨b, hb, h⟩, h2⟩
    exact ⟨⟨b, (hl b).mpr hb, h⟩, h2⟩

/-- A block the system hands out lies above every block of a well-formed pool, and not at the
null address. -/
theorem boost_fresh_block (p : BoostPool) (s s1 : BoostSys) (k base : Nat) (hwf : boost_wf p s)
    (hs : sys_malloc s k = some (base, s1)) :
    base ≠ 0 ∧ ∀ a, base ≤ a → boost_is_from p a = false := by
  obtain ⟨hb, -⟩ := sys_malloc_spec s s1 k base hs
  refine ⟨by omega, ?_⟩
  intro a ha
  cases hfa : boost_is_from p a with
  | false => rfl
  | true =>
    obtain ⟨b, hbl, h1, h2⟩ := (boost_is_from_iff p a).mp hfa
    have := (hwf.2.1 b hbl).2
    omega

theorem boost_free_nonzero (p : BoostPool) (s : BoostSys) (c : Nat) (hwf : boost_wf p s)
    (hc : c ∈ p.first) : c ≠ 0 := by
  obtain ⟨b, hbl, h1, -⟩ := (boost_is_from_iff p c).mp (hwf.1 c hc)
  have := (hwf.2.1 b hbl).1
  omega

theorem boost_grow_zero (p : BoostPool) (base : Nat) (hf : p.first = []) :
    boost_grow p 0 base = (0, { p with next_size := 0, list := (base, 0) :: p.list }) := by
  simp [boost_grow, store_malloc, hf]

theorem boost_grow_succ (p : BoostPool) (k base : Nat) (hf : p.first = []) :
    boost_grow p (k + 1) base =
      (base, { p with next_size := 2 * (k + 1), list := (base, k + 1) :: p.list,
                      first := List.range' (base + 1) k }) := by
  simp [boost_grow, store_malloc, hf, List.range'_succ]

theorem boost_new_spec (sz : Nat) (s s1 : BoostSys) (p : BoostPool)
    (h : boost_new sz s = some (p, s1)) : p.list = [] ∧ p.first = [] := by
  unfold boost_new at h
  split at h
  · simp only [Option.some.injEq, Prod.mk.injEq] at h
    obtain ⟨h1, -⟩ := h
    subst h1
    exact ⟨rfl, rfl⟩
  · cases h

theorem boost_malloc_owns (p : BoostPool) (s : BoostSys) (hwf : boost_wf p s)
    (h : (boost_malloc p s).1 ≠ 0) :
    boost_is_from (boost_malloc p s).2.1 (boost_malloc p s).1 = true := by
  unfold boost_malloc at h ⊢
  cases hf : p.first with
  | cons c rest =>
    simp only [hf] at h ⊢
    have hc : c ∈ p.first := by rw [hf]; exact List.mem_cons_self _ _
    have := hwf.1 c hc
    simpa [boost_is_from] using this
  | nil =>
    simp only [hf] at h ⊢
    rcases boost_malloc_need_resize_cases p s with ⟨k, base, s1, hs, he⟩ | ⟨ns, he⟩
    · rw [he] at h ⊢
      cases k with
      | zero => rw [boost_grow_zero p base hf] at h; exact absurd rfl h
      | succ k =>
        rw [boost_grow_succ p k base hf]
        simp [boost_is_from]
    · rw [he] at h
      exact absurd rfl h

theorem boost_malloc_null (p : BoostPool) (s : BoostSys) (hwf : boost_wf p s)
    (h : (boost_malloc p s).1 = 0) (a : Nat) :
    boost_allocated (boost_malloc p s).2.1 a ↔ boost_allocated p a := by
  unfold boost_malloc at h ⊢
  cases hf : p.first with
  | cons c rest =>
    simp only [hf] at h
    have hc : c ∈ p.first := by rw [hf]; exact List.mem_cons_self _ _
    exact absurd h (boost_free_nonzero p s c hwf hc)
  | nil =>
    simp only [hf] at h ⊢
    rcases boost_malloc_need_resize_cases p s with ⟨k, base, s1, hs, he⟩ | ⟨ns, he⟩
    · rw [he] at h ⊢
      cases k with
      | zero =>
        rw [boost_grow_zero p base hf]
        unfold boost_allocated
        rw [boost_is_from_iff, boost_is_from_iff]
        simp only [List.mem_cons]
        constructor
        · rintro ⟨⟨b, hb | hb, h1, h2⟩, h3⟩
          · subst hb; simp at h1 h2; omega
          · exact ⟨⟨b, hb, h1, h2⟩, h3⟩
        · rintro ⟨⟨b, hb, h1, h2⟩, h3⟩
          exact ⟨⟨b, Or.inr hb, h1, h2⟩, h3⟩
      | succ k =>
        rw [boost_grow_succ p k base hf] at h
        exact absurd h (boost_fresh_block p s s1 _ base hwf hs).1
    · rw [he]
      refine boost_allocated_congr p _ a ?_ ?_
      · intro x; rfl
      · intro x; rfl

theorem boost_malloc_allocated (p : BoostPool) (s : BoostSys) (hwf : boost_wf p s)
    (h : (boost_malloc p s).1 ≠ 0) (a : Nat) :
    boost_allocated (boost_malloc p s).2.1 a ↔
      (boost_allocated p a ∨ a = (boost_malloc p s).1) := by
  unfold boost_malloc at h ⊢
  cases hf : p.first with
  | cons c rest =>
    simp only
    have hnd := hwf.2.2
    rw [hf] at hnd
    have hc : c ∈ p.first := by rw [hf]; exact List.mem_cons_self _ _
    have hlist : boost_is_from { p with first := rest } a = boost_is_from p a := rfl
    unfold boost_allocated
    rw [hlist, hf]
    simp only [List.mem_cons, not_or]
    constructor
    · rintro ⟨h1, h2⟩
      by_cases hac : a = c
      · exact Or.inr hac
      · exact Or.inl ⟨h1, hac, h2⟩
    · rintro (⟨h1, -, h2⟩ | hac)
      · exact ⟨h1, h2⟩
      · subst hac
        exact ⟨hwf.1 a hc, (List.nodup_cons.mp hnd).1⟩
  | nil =>
    simp only [hf] at h ⊢
    rcases boost_malloc_need_resize_cases p s with ⟨k, base, s1, hs, he⟩ | ⟨ns, he⟩
    · rw [he] at h ⊢
      obtain ⟨-, hfresh⟩ := boost_fresh_block p s s1 k base hwf hs
      cases k with
      | zero => rw [boost_grow_zero p base hf] at h; exact absurd rfl h
      | succ k =>
        rw [boost_grow_succ p k base hf]
        unfold boost_allocated
        rw [boost_is_from_iff, boost_is_from_iff]
        simp only [List.mem_cons, List.mem_range'_1, hf, List.not_mem_nil, not_false_eq_true,
          and_true]
        constructor
        · rintro ⟨⟨b, hb | hb, h1, h2⟩, h3⟩
          · subst hb
            simp only at h1 h2
            right
            by_contra hne
            exact h3 ⟨by omega, by omega⟩
          · exact Or.inl ⟨b, hb, h1, h2⟩
        · rintro (⟨b, hb, h1, h2⟩ | hab)
          · refine ⟨⟨b, Or.inr hb, h1, h2⟩, ?_⟩
            have hin : boost_is_from p a = true := (boost_is_from_iff p a).mpr ⟨b, hb, h1, h2⟩
            rintro ⟨hab, -⟩
            have := hfresh a (by omega)
            rw [hin] at this
            cases this
          · subst hab
            exact ⟨⟨(a, k + 1), Or.inl rfl, le_refl _, by simp only; omega⟩, by omega⟩
    · rw [he] at h
      exact absurd rfl h

theorem boost_malloc_fresh (p : BoostPool) (s : BoostSys) (hwf : boost_wf p s)
    (h : (boost_malloc p s).1 ≠ 0) : ¬ boost_allocated p (boost_malloc p s).1 := by
  unfold boost_malloc at h ⊢
  cases hf : p.first with
  | cons c rest =>
    simp only
    rintro ⟨-, h2⟩
    exact h2 (by rw [hf]; exact List.mem_cons_self _ _)
  | nil =>
    simp only [hf] at h ⊢
    rcases boost_malloc_need_resize_cases p s with ⟨k, base, s1, hs, he⟩ | ⟨ns, he⟩
    · rw [he] at h ⊢
      obtain ⟨-, hfresh⟩ := boost_fresh_block p s s1 k base hwf hs
      cases k with
      | zero => rw [boost_grow_zero p base hf] at h; exact absurd rfl h
      | succ k =>
        rw [boost_grow_succ p k base hf]
        rintro ⟨h1, -⟩
        have := hfresh base (le_refl _)
        simp only at h1
        rw [h1] at this
        cases this
    · rw [he] at h
      exact absurd rfl h

theorem boost_free_allocated (p : BoostPool) (c a : Nat) :
    boost_allocated (boost_free p c) a ↔ (boost_allocated p a ∧ a ≠ c) := by
  have hlist : boost_is_from (boost_free p c) a = boost_is_from p a := rfl
  unfold boost_allocated
  rw [hlist]
  simp only [boost_free, List.mem_cons, not_or]
  tauto

theorem boost_ordered_free_allocated (p : BoostPool) (c n a : Nat) :
    boost_allocated (boost_ordered_free p c n) a ↔
      (boost_allocated p a ∧ ¬ (c ≤ a ∧ a < c + n)) := by
  have hlist : boost_is_from (boost_ordered_free p c n) a = boost_is_from p a := rfl
  unfold boost_allocated
  rw [hlist]
  simp only [boost_ordered_free, mem_add_ordered_block, not_or]
  tauto

theorem boost_is_from_malloc (p : BoostPool) (s : BoostSys) (a : Nat)
    (h : boost_is_from p a = true) : boost_is_from (boost_malloc p s).2.1 a = true := by
  rw [boost_is_from_iff] at h ⊢
  obtain ⟨b, hb, h1, h2⟩ := h
  refine ⟨b, ?_, h1, h2⟩
  unfold boost_malloc
  cases hf : p.first with
  | cons c rest => exact hb
  | nil =>
    simp only
    rcases boost_malloc_need_resize_cases p s with ⟨k, base, s1, hs, he⟩ | ⟨ns, he⟩
    · rw [he]
      simp only [boost_grow]
      exact List.mem_cons_of_mem _ hb
    · rw [he]
      exact hb

theorem boost_ordered_malloc_zero (p : BoostPool) (s : BoostSys) :
    boost_ordered_malloc p s 0 = (0, p, s) := by
  simp [boost_ordered_malloc]

theorem mem_grow_ordered_first (p : BoostPool) (n k base a : Nat) (hnk : n ≤ k) :
    a ∈ (boost_grow_ordered p n k base).2.first ↔
      a ∈ p.first ∨ (base + n ≤ a ∧ a < base + k) := by
  unfold boost_grow_ordered
  by_cases h : n < k
  · simp only [h, if_true]
    rw [mem_add_ordered_block]
    have : base + n + (k - n) = base + k := by omega
    rw [this]
  · simp only [h, if_false]
    constructor
    · intro h1; exact Or.inl h1
    · rintro (h1 | ⟨h1, h2⟩)
      · exact h1
      · omega

theorem mem_grow_ordered_list (p : BoostPool) (n k base : Nat) (b : Nat × Nat) :
    b ∈ (boost_grow_ordered p n k base).2.list ↔ b = (base, k) ∨ b ∈ p.list := by
  unfold boost_grow_ordered
  exact mem_insert_block p.list (base, k) b

theorem boost_ordered_malloc_owns (p : BoostPool) (s : BoostSys) (n : Nat) (hwf : boost_wf p s)
    (h : (boost_ordered_malloc p s n).1 ≠ 0) :
    boost_is_from (boost_ordered_malloc p s n).2.1 (boost_ordered_malloc p s n).1 = true := by
  by_cases hn : n = 0
  · subst hn
    rw [boost_ordered_malloc_zero] at h
    exact absurd rfl h
  rcases boost_ordered_malloc_cases p s n hn with
    ⟨r, rest, hm, he⟩ | ⟨k, base, s1, hm, hnk, hs, he⟩ | ⟨ns, he⟩
  · rw [he]
    have hr := (malloc_n_spec n p.first r rest hm).1
    have := hwf.1 r hr
    simpa [boost_is_from] using this
  · rw [he]
    rw [boost_is_from_iff]
    refine ⟨(base, k), (mem_grow_ordered_list p n k base _).mpr (Or.inl rfl), ?_, ?_⟩
    · simp [boost_grow_ordered]
    · simp only [boost_grow_ordered]
      omega
  · rw [he] at h
    exact absurd rfl h

theorem boost_ordered_malloc_null (p : BoostPool) (s : BoostSys) (n : Nat) (hwf : boost_wf p s)
    (h : (boost_ordered_malloc p s n).1 = 0) (a : Nat) :
    boost_allocated (boost_ordered_malloc p s n).2.1 a ↔ boost_allocated p a := by
  by_cases hn : n = 0
  · subst hn
    rw [boost_ordered_malloc_zero]
  rcases boost_ordered_malloc_cases p s n hn with
    ⟨r, rest, hm, he⟩ | ⟨k, base, s1, hm, hnk, hs, he⟩ | ⟨ns, he⟩
  · rw [he] at h
    have hr := (malloc_n_spec n p.first r rest hm).1
    exact absurd h (boost_free_nonzero p s r hwf hr)
  · rw [he] at h
    exact absurd h (boost_fresh_block p s s1 k base hwf hs).1
  · rw [he]
    refine boost_allocated_congr p _ a ?_ ?_
    · intro x; rfl
    · intro x; rfl

theorem boost_ordered_malloc_allocated (p : BoostPool) (s : BoostSys) (n : Nat)
    (hwf : boost_wf p s) (h : (boost_ordered_malloc p s n).1 ≠ 0) (a : Nat) :
    boost_allocated (boost_ordered_malloc p s n).2.1 a ↔
      (boost_allocated p a ∨
        ((boost_ordered_malloc p s n).1 ≤ a ∧ a < (boost_ordered_malloc p s n).1 + n)) := by
  by_cases hn : n = 0
  · subst hn
    rw [boost_ordered_malloc_zero] at h
    exact absurd rfl h
  rcases boost_ordered_malloc_cases p s n hn with
    ⟨r, rest, hm, he⟩ | ⟨k, base, s1, hm, hnk, hs, he⟩ | ⟨ns, he⟩
  · rw [he]
    obtain ⟨-, hmem, hnd⟩ := malloc_n_spec n p.first r rest hm
    obtain ⟨-, hdis⟩ := hnd hwf.2.2
    have hlist : boost_is_from { p with first := rest } a = boost_is_from p a := rfl
    unfold boost_allocated
    rw [hlist]
    simp only
    constructor
    · rintro ⟨h1, h2⟩
      by_cases hrun : r ≤ a ∧ a < r + n
      · exact Or.inr hrun
      · refine Or.inl ⟨h1, fun hc => ?_⟩
        rcases (hmem a).mp hc with h3 | h3
        · exact h2 h3
        · exact hrun h3
    · rintro (⟨h1, h2⟩ | ⟨h1, h2⟩)
      · exact ⟨h1, fun hc => h2 ((hmem a).mpr (Or.inl hc))⟩
      · exact ⟨hwf.1 a ((hmem a).mpr (Or.inr ⟨h1, h2⟩)), hdis a h1 h2⟩
  · rw [he]
    obtain ⟨-, hfresh⟩ := boost_fresh_block p s s1 k base hwf hs
    have hbase : (boost_grow_ordered p n k base).1 = base := rfl
    unfold boost_allocated
    rw [boost_is_from_iff, boost_is_from_iff]
    simp only [hbase, mem_grow_ordered_first p n k base a hnk]
    constructor
    · rintro ⟨⟨b, hb, h1, h2⟩, h3⟩
      rcases (mem_grow_ordered_list p n k base b).mp hb with hb | hb
      · subst hb
        simp only at h1 h2
        right
        refine ⟨h1, ?_⟩
        by_contra hc
        exact h3 (Or.inr ⟨by omega, h2⟩)
      · exact Or.inl ⟨⟨b, hb, h1, h2⟩, fun hc => h3 (Or.inl hc)⟩
    · rintro (⟨⟨b, hb, h1, h2⟩, h3⟩ | ⟨h1, h2⟩)
      · have hin : boost_is_from p a = true := (boost_is_from_iff p a).mpr ⟨b, hb, h1, h2⟩
        have hlt : a < base := by
          by_contra hc
          have := hfresh a (by omega)
          rw [hin] at this
          cases this
        refine ⟨⟨b, (mem_grow_ordered_list p n k base b).mpr (Or.inr hb), h1, h2⟩, ?_⟩
        rintro (hc | hc)
        · exact h3 hc
        · omega
      · refine ⟨⟨(base, k), (mem_grow_ordered_list p n k base _).mpr (Or.inl rfl), h1, ?_⟩, ?_⟩
        · simp only; omega
        · rintro (hc | hc)
          · have := hfresh a h1
            rw [hwf.1 a hc] at this
            cases this
          · omega
  · rw [he] at h
    exact absurd rfl h

theorem boost_ordered_malloc_fresh (p : BoostPool) (s : BoostSys) (n : Nat)
    (hwf : boost_wf p s) (h : (boost_ordered_malloc p s n).1 ≠ 0) (a : Nat)
    (h1 : (boost_ordered_malloc p s n).1 ≤ a) (h2 : a < (boost_ordered_malloc p s n).1 + n) :
    ¬ boost_allocated p a := by
  by_cases hn : n = 0
  · subst hn
    rw [boost_ordered_malloc_zero] at h
    exact absurd rfl h
  rcases boost_ordered_malloc_cases p s n hn with
    ⟨r, rest, hm, he⟩ | ⟨k, base, s1, hm, hnk, hs, he⟩ | ⟨ns, he⟩
  · rw [he] at h1 h2
    obtain ⟨-, hmem, -⟩ := malloc_n_spec n p.first r rest hm
    rintro ⟨-, h3⟩
    exact h3 ((hmem a).mpr (Or.inr ⟨h1, h2⟩))
  · rw [he] at h1
    obtain ⟨-, hfresh⟩ := boost_fresh_block p s s1 k base hwf hs
    rintro ⟨h3, -⟩
    have := hfresh a h1
    rw [h3] at this
    cases this
  · rw [he] at h
    exact absurd rfl h

theorem boost_is_from_ordered_malloc (p : BoostPool) (s : BoostSys) (n a : Nat)
    (h : boost_is_from p a = true) : boost_is_from (boost_ordered_malloc p s n).2.1 a = true := by
  by_cases hn : n = 0
  · subst hn
    rw [boost_ordered_malloc_zero]
    exact h
  rw [boost_is_from_iff] at h ⊢
  obtain ⟨b, hb, h1, h2⟩ := h
  refine ⟨b, ?_, h1, h2⟩
  rcases boost_ordered_malloc_cases p s n hn with
    ⟨r, rest, hm, he⟩ | ⟨k, base, s1, hm, hnk, hs, he⟩ | ⟨ns, he⟩
  · rw [he]; exact hb
  · rw [he]; exact (mem_grow_ordered_list p n k base b).mpr (Or.inr hb)
  · rw [he]; exact hb

theorem boost_new_wf (sz : Nat) (s s1 : BoostSys) (p : BoostPool)
    (h : boost_new sz s = some (p, s1)) : boost_wf p s1 := by
  obtain ⟨h1, h2⟩ := boost_new_spec sz s s1 p h
  unfold boost_wf
  rw [h1, h2]
  simp

theorem boost_new_allocated (sz : Nat) (s s1 : BoostSys) (p : BoostPool)
    (h : boost_new sz s = some (p, s1)) (a : Nat) : ¬ boost_allocated p a := by
  obtain ⟨h1, -⟩ := boost_new_spec sz s s1 p h
  rintro ⟨h3, -⟩
  rw [boost_is_from_iff, h1] at h3
  simp at h3

theorem boost_allocated_finite (p : BoostPool) : {a | boost_allocated p a}.Finite := by
  apply Set.Finite.subset (p.list.flatMap (fun b => List.range' b.1 b.2)).toFinset.finite_toSet
  intro a ha
  obtain ⟨b, hb, h1, h2⟩ := (boost_is_from_iff p a).mp ha.1
  simp only [Finset.mem_coe, List.mem_toFinset, List.mem_flatMap, List.mem_range'_1]
  exact ⟨b, hb, h1, h2⟩

/-- The policy `boost::pool<>` keeps the contract. -/
theorem boostPool_contract : PolicyContract boostPool boost_wf boost_allocated where
  new_pool_wf := fun sz s p s1 h => boost_new_wf sz s s1 p h
  new_pool_allocated := fun sz s p s1 h => boost_new_allocated sz s s1 p h
  malloc_owns := boost_malloc_owns
  ordered_malloc_owns := boost_ordered_malloc_owns
  malloc_null := boost_malloc_null
  ordered_malloc_null := boost_ordered_malloc_null
  malloc_allocated := boost_malloc_allocated
  malloc_fresh := boost_malloc_fresh
  ordered_malloc_allocated := boost_ordered_malloc_allocated
  ordered_malloc_fresh := boost_ordered_malloc_fresh
  free_allocated := boost_free_allocated
  ordered_free_allocated := boost_ordered_free_allocated
  is_from_malloc := boost_is_from_malloc
  is_from_ordered_malloc := boost_is_from_ordered_malloc
  is_from_free := fun _ _ _ h => h
  is_from_ordered_free := fun _ _ _ _ h => h
  allocated_finite := boost_allocated_finite

/-! ## Failed creation (C5) -/

/-- Under the contract, a chunk obtained with `malloc` and handed back with `free` leaves the
allocated chunks as they were. -/
theorem contract_malloc_free (P : PoolPolicy) (wf : P.Pool → P.Sys → Prop)
    (allocated : P.Pool → Nat → Prop) (hP : PolicyContract P wf allocated) (p : P.Pool)
    (s : P.Sys) (hwf : wf p s) (h : (P.malloc p s).1 ≠ 0) (a : Nat) :
    allocated (P.free (P.malloc p s).2.1 (P.malloc p s).1) a ↔ allocated p a := by
  rw [hP.free_allocated, hP.malloc_allocated p s hwf h a]
  have hfresh := hP.malloc_fresh p s hwf h
  constructor
  · rintro ⟨h1 | h1, h2⟩
    · exact h1
    · exact absurd h1 h2
  · intro h1
    refine ⟨Or.inl h1, ?_⟩
    intro hc
    rw [hc] at h1
    exact hfresh h1

/-- Under the contract, a block obtained with `ordered_malloc(n)` and handed back with
`ordered_free` and the same `n` leaves the allocated chunks as they were. -/
theorem contract_ordered_malloc_free (P : PoolPolicy) (wf : P.Pool → P.Sys → Prop)
    (allocated : P.Pool → Nat → Prop) (hP : PolicyContract P wf allocated) (p : P.Pool)
    (s : P.Sys) (n : Nat) (hwf : wf p s) (h : (P.ordered_malloc p s n).1 ≠ 0) (a : Nat) :
    allocated (P.ordered_free (P.ordered_malloc p s n).2.1 (P.ordered_malloc p s n).1 n) a ↔
      allocated p a := by
  rw [hP.ordered_free_allocated, hP.ordered_malloc_allocated p s n hwf h a]
  have hfresh := hP.ordered_malloc_fresh p s n hwf h a
  constructor
  · rintro ⟨h1 | h1, h2⟩
    · exact h1
    · exact absurd h1 h2
  · intro h1
    refine ⟨Or.inl h1, ?_⟩
    rintro ⟨hc1, hc2⟩
    exact hfresh hc1 hc2 h1

theorem allocated_in_update {P : PoolPolicy} (allocated : P.Pool → Nat → Prop)
    (tss : Nat → Option P.Pool) (sys : P.Sys) (log : List Event) (tid a : Nat) (q : P.Pool) :
    allocated_in allocated
      ({ tss := Function.update tss tid (some q), sys := sys, log := log } : World P) tid a ↔
      allocated q a := by
  simp [allocated_in]

theorem GetMemoryPool_wf (P : PoolPolicy) (T : ChunkType) (wf : P.Pool → P.Sys → Prop)
    (allocated : P.Pool → Nat → Prop) (hP : PolicyContract P wf allocated) (w w1 : World P)
    (tid : Nat) (mem_pool : P.Pool) (hw : WorldWF wf w)
    (hG : GetMemoryPool P T w tid = (some mem_pool, w1)) : wf mem_pool w1.sys := by
  rcases GetMemoryPool_cases P T w tid with
    ⟨p, hp, hG1⟩ | ⟨p0, s1, hp, hnew, hb, hG1⟩ | ⟨hp, hnew, hG1⟩ | ⟨p0, s1, hp, hnew, hb, hG1⟩
  · rw [hG1] at hG
    simp only [Prod.mk.injEq, Option.some.injEq] at hG
    obtain ⟨h1, h2⟩ := hG
    subst h1
    subst h2
    exact hw tid p hp
  · rw [hG1] at hG
    simp only [Prod.mk.injEq, Option.some.injEq] at hG
    obtain ⟨h1, h2⟩ := hG
    subst h1
    subst h2
    exact hP.new_pool_wf _ _ _ _ hnew
  · rw [hG1] at hG
    simp at hG
  · rw [hG1] at hG
    simp at hG

theorem GetMemoryPool_allocated (P : PoolPolicy) (T : ChunkType) (wf : P.Pool → P.Sys → Prop)
    (allocated : P.Pool → Nat → Prop) (hP : PolicyContract P wf allocated) (w w1 : World P)
    (tid : Nat) (mem_pool : P.Pool)
    (hG : GetMemoryPool P T w tid = (some mem_pool, w1)) (a : Nat) :
    allocated mem_pool a ↔ allocated_in allocated w tid a := by
  rcases GetMemoryPool_cases P T w tid with
    ⟨p, hp, hG1⟩ | ⟨p0, s1, hp, hnew, hb, hG1⟩ | ⟨hp, hnew, hG1⟩ | ⟨p0, s1, hp, hnew, hb, hG1⟩
  · rw [hG1] at hG
    simp only [Prod.mk.injEq, Option.some.injEq] at hG
    obtain ⟨h1, -⟩ := hG
    subst h1
    simp [allocated_in, hp]
  · rw [hG1] at hG
    simp only [Prod.mk.injEq, Option.some.injEq] at hG
    obtain ⟨h1, -⟩ := hG
    subst h1
    have := hP.new_pool_allocated _ _ _ _ hnew a
    simp [allocated_in, hp, this]
  · rw [hG1] at hG
    simp at hG
  · rw [hG1] at hG
    simp at hG

theorem GetMemoryPool_none_allocated (P : PoolPolicy) (T : ChunkType)
    (allocated : P.Pool → Nat → Prop) (w w1 : World P) (tid : Nat)
    (hG : GetMemoryPool P T w tid = (none, w1)) (a : Nat) :
    allocated_in allocated w1 tid a ↔ allocated_in allocated w tid a := by
  have h1 := GetMemoryPool_slot P T w tid
  have h2 := (GetMemoryPool_none_iff P T w tid).mp (by rw [hG])
  rw [hG] at h1
  simp only at h1
  simp [allocated_in, h1, h2.1]

/-- The function `Create()` touches no slot but the caller's. -/
theorem Create_other (P : PoolPolicy) (T : ChunkType) (w : World P) (tid t : Nat)
    (ht : t ≠ tid) : (Create P T w tid).2.tss t = w.tss t := by
  have hg := GetMemoryPool_other P T w tid t ht
  unfold Create
  rcases hG : GetMemoryPool P T w tid with ⟨_ | mem_pool, w1⟩
  · rw [hG] at hg; exact hg
  · rw [hG] at hg
    simp only at hg ⊢
    split_ifs <;> simp [Function.update_noteq ht, hg]

/-- The function `Create(int)` touches no slot but the caller's. -/
theorem CreateN_other (P : PoolPolicy) (T : ChunkType) (w : World P) (tid t : Nat) (count : Int)
    (ht : t ≠ tid) : (CreateN P T w tid count).2.tss t = w.tss t := by
  have hg := GetMemoryPool_other P T w tid t ht
  unfold CreateN
  rcases hG : GetMemoryPool P T w tid with ⟨_ | mem_pool, w1⟩
  · rw [hG] at hg; exact hg
  · rw [hG] at hg
    simp only at hg ⊢
    split_ifs
    · simp [Function.update_noteq ht, hg]
    · rcases hL : construct_loop T (P.ordered_malloc mem_pool w1.sys (int_to_size count)).1 0
        count.toNat w1.log with ⟨_ | _, log1⟩ <;> simp [Function.update_noteq ht, hg]

/-- C5: `Create()` and `Create(count)` never leave a chunk behind when they return null. In a
state whose pools are well formed, with a policy that keeps its contract: whenever either returns
`NULL` (because `GetMemoryPool` failed, because the policy returned no chunk, or because a default
constructor threw, at any element) the chunks allocated from the calling thread's pool are the
same after the call as before, and no other thread's slot has changed. The call always returns a
value: a throwing constructor ends in the null result. -/
theorem Create_null_restores (P : PoolPolicy) (T : ChunkType) (wf : P.Pool → P.Sys → Prop)
    (allocated : P.Pool → Nat → Prop) (hP : PolicyContract P wf allocated) (w : World P)
    (tid : Nat) (count : Int) (hw : WorldWF wf w) :
    ((Create P T w tid).1 = 0 →
      ∀ a, allocated_in allocated (Create P T w tid).2 tid a ↔ allocated_in allocated w tid a) ∧
    ((CreateN P T w tid count).1 = 0 →
      ∀ a, allocated_in allocated (CreateN P T w tid count).2 tid a ↔
        allocated_in allocated w tid a) ∧
    (∀ t, t ≠ tid → (Create P T w tid).2.tss t = w.tss t ∧
      (CreateN P T w tid count).2.tss t = w.tss t) := by
  refine ⟨?_, ?_, fun t ht => ⟨Create_other P T w tid t ht, CreateN_other P T w tid t count ht⟩⟩
  · unfold Create
    rcases hG : GetMemoryPool P T w tid with ⟨_ | mem_pool, w1⟩
    · intro _ a
      exact GetMemoryPool_none_allocated P T allocated w w1 tid hG a
    · have hwf := GetMemoryPool_wf P T wf allocated hP w w1 tid mem_pool hw hG
      have hal := GetMemoryPool_allocated P T wf allocated hP w w1 tid mem_pool hG
      simp only
      by_cases h0 : (P.malloc mem_pool w1.sys).1 = 0
      · simp only [h0, if_true]
        intro _ a
        rw [allocated_in_update, hP.malloc_null mem_pool w1.sys hwf h0 a, hal a]
      · simp only [h0, if_false]
        by_cases hc : T.ctor_ok w1.log (P.malloc mem_pool w1.sys).1 = true
        · simp only [hc, if_true]
          intro h; exact absurd h h0
        · simp only [hc]
          intro _ a
          simp only [Bool.false_eq_true, if_false]
          rw [allocated_in_update, contract_malloc_free P wf allocated hP mem_pool w1.sys hwf h0 a, hal a]
  · unfold CreateN
    rcases hG : GetMemoryPool P T w tid with ⟨_ | mem_pool, w1⟩
    · intro _ a
      exact GetMemoryPool_none_allocated P T allocated w w1 tid hG a
    · have hwf := GetMemoryPool_wf P T wf allocated hP w w1 tid mem_pool hw hG
      have hal := GetMemoryPool_allocated P T wf allocated hP w w1 tid mem_pool hG
      simp only
      by_cases h0 : (P.ordered_malloc mem_pool w1.sys (int_to_size count)).1 = 0
      · simp only [h0, if_true]
        intro _ a
        rw [allocated_in_update, hP.ordered_malloc_null mem_pool w1.sys _ hwf h0 a, hal a]
      · simp only [h0, if_false]
        rcases hL : construct_loop T (P.ordered_malloc mem_pool w1.sys (int_to_size count)).1 0
          count.toNat w1.log with ⟨_ | _, log1⟩
        · simp only
          intro _ a
          rw [allocated_in_update, contract_ordered_malloc_free P wf allocated hP mem_pool w1.sys _ hwf h0 a,
            hal a]
        · simp only
          intro h; exact absurd h h0

/-- A process that starts without pools is well formed. -/
theorem WorldWF_init (avail : Nat) : WorldWF boost_wf (initWorld avail) := by
  intro t p h
  simp [initWorld] at h

/-- A process in which one thread has a well-formed pool is well formed. -/
theorem WorldWF_single (p0 : BoostPool) (s : BoostSys) (l : List Event) (tid : Nat)
    (h : boost_wf p0 s) :
    WorldWF boost_wf
      ({ tss := Function.update (fun _ => none) tid (some p0), sys := s, log := l } :
        World boostPool) := by
  intro t p ht
  by_cases htt : t = tid
  · subst htt
    simp only [Function.update_same, Option.some.injEq] at ht
    subst ht
    exact h
  · simp [Function.update_noteq htt] at ht

theorem oneObject_wf : WorldWF boost_wf oneObject := by
  intro t p ht
  by_cases htt : t = 0
  · subst htt
    have h0 : oneObject.tss 0 = some oneObject_pool0 := rfl
    rw [h0] at ht
    cases ht
    have hs : oneObject.sys = { brk := 33, avail := 966 } := rfl
    rw [hs]
    decide
  · have h1 : oneObject.tss t = (initWorld 1000).tss t :=
      Create_other boostPool plainType (initWorld 1000) 0 t htt
    rw [h1] at ht
    simp [initWorld] at ht

/-- Thread 0 holds one object; creating a second one whose constructor throws returns null and
leaves the chunks allocated from the pool of thread 0 as they were: chunk 1, and only chunk 1, is
allocated before and after. -/
theorem Create_null_restores_witness :
    (Create boostPool throwingType oneObject 0).1 = 0 ∧
    (CreateN boostPool throwingType oneObject 0 3).1 = 0 ∧
    allocated_in boost_allocated oneObject 0 1 ∧
    (∀ a, allocated_in boost_allocated (Create boostPool throwingType oneObject 0).2 0 a ↔
      allocated_in boost_allocated oneObject 0 a) ∧
    (∀ a, allocated_in boost_allocated (CreateN boostPool throwingType oneObject 0 3).2 0 a ↔
      allocated_in boost_allocated oneObject 0 a) :=
  have h := Create_null_restores boostPool throwingType boost_wf boost_allocated
    boostPool_contract oneObject 0 3 oneObject_wf
  ⟨rfl, rfl, ⟨oneObject_pool0, rfl, by decide⟩, h.1 rfl, h.2.1 rfl⟩

/-! ## Creation followed by destruction (C6) -/

theorem Destroy_other (P : PoolPolicy) (T : ChunkType) (w : World P) (tid t ptr : Nat)
    (ht : t ≠ tid) : (Destroy P T w tid ptr).2.tss t = w.tss t := by
  have hg := GetMemoryPool_other P T w tid t ht
  unfold Destroy
  by_cases hptr : ptr = 0
  · simp [hptr]
  · simp only [hptr, if_false]
    rcases hG : GetMemoryPool P T w tid with ⟨_ | mem_pool, w1⟩
    · rw [hG] at hg; exact hg
    · rw [hG] at hg
      simp only at hg ⊢
      split_ifs <;> simp [Function.update_noteq ht, hg]

theorem DestroyN_other (P : PoolPolicy) (T : ChunkType) (w : World P) (tid t ptr : Nat)
    (count : Int) (ht : t ≠ tid) : (DestroyN P T w tid ptr count).2.tss t = w.tss t := by
  have hg := GetMemoryPool_other P T w tid t ht
  unfold DestroyN
  by_cases hptr : ptr = 0
  · simp [hptr]
  · simp only [hptr, if_false]
    rcases hG : GetMemoryPool P T w tid with ⟨_ | mem_pool, w1⟩
    · rw [hG] at hg; exact hg
    · rw [hG] at hg
      simp only at hg ⊢
      split_ifs <;> simp [Function.update_noteq ht, hg]

theorem PurgeMemory_other (P : PoolPolicy) (T : ChunkType) (w : World P) (tid t : Nat)
    (ht : t ≠ tid) : (PurgeMemory P T w tid).2.tss t = w.tss t := by
  have hg := GetMemoryPool_other P T w tid t ht
  unfold PurgeMemory
  rcases hG : GetMemoryPool P T w tid with ⟨_ | mem_pool, w1⟩
  · rw [hG] at hg; exact hg
  · rw [hG] at hg
    simp only at hg ⊢
    simp [Function.update_noteq ht, hg]

theorem ReleaseMemoryPool_other (P : PoolPolicy) (w : World P) (tid t : Nat) (ht : t ≠ tid) :
    (ReleaseMemoryPool P w tid).tss t = w.tss t := by
  unfold ReleaseMemoryPool
  cases h : w.tss tid with
  | none => simp
  | some p => simp [Function.update_noteq ht]

theorem Create_owned (P : PoolPolicy) (T : ChunkType) (wf : P.Pool → P.Sys → Prop)
    (allocated : P.Pool → Nat → Prop) (hP : PolicyContract P wf allocated) (w : World P)
    (tid ptr : Nat) (h : owned P w tid ptr) : owned P (Create P T w tid).2 tid ptr := by
  obtain ⟨p, hp, hf⟩ := h
  unfold Create
  rw [GetMemoryPool_bound P T w tid p hp]
  simp only
  have h1 := hP.is_from_malloc p w.sys ptr hf
  split_ifs
  · exact ⟨_, by simp, h1⟩
  · exact ⟨_, by simp, h1⟩
  · exact ⟨P.free (P.malloc p w.sys).2.1 (P.malloc p w.sys).1, by simp,
      hP.is_from_free _ _ _ h1⟩

theorem CreateN_owned (P : PoolPolicy) (T : ChunkType) (wf : P.Pool → P.Sys → Prop)
    (allocated : P.Pool → Nat → Prop) (hP : PolicyContract P wf allocated) (w : World P)
    (tid ptr : Nat) (count : Int) (h : owned P w tid ptr) :
    owned P (CreateN P T w tid count).2 tid ptr := by
  obtain ⟨p, hp, hf⟩ := h
  unfold CreateN
  rw [GetMemoryPool_bound P T w tid p hp]
  simp only
  have h1 := hP.is_from_ordered_malloc p w.sys (int_to_size count) ptr hf
  split_ifs
  · exact ⟨_, by simp, h1⟩
  · rcases hL : construct_loop T (P.ordered_malloc p w.sys (int_to_size count)).1 0
      count.toNat w.log with ⟨_ | _, log1⟩
    · exact ⟨P.ordered_free (P.ordered_malloc p w.sys (int_to_size count)).2.1
        (P.ordered_malloc p w.sys (int_to_size count)).1 (int_to_size count), by simp,
        hP.is_from_ordered_free _ _ _ _ h1⟩
    · exact ⟨_, by simp, h1⟩

theorem Destroy_keeps_owned (P : PoolPolicy) (T : ChunkType) (wf : P.Pool → P.Sys → Prop)
    (allocated : P.Pool → Nat → Prop) (hP : PolicyContract P wf allocated) (w : World P)
    (tid ptr q : Nat) (h : owned P w tid ptr) : owned P (Destroy P T w tid q).2 tid ptr := by
  obtain ⟨p, hp, hf⟩ := h
  unfold Destroy
  rw [GetMemoryPool_bound P T w tid p hp]
  simp only
  by_cases hq : q = 0
  · simp only [hq, if_true]
    exact ⟨p, hp, hf⟩
  · simp only [hq, if_false]
    by_cases hfq : P.is_from p q = false
    · simp only [hfq, if_true]
      exact ⟨p, hp, hf⟩
    · simp only [hfq, if_false]
      exact ⟨P.free p q, by simp, hP.is_from_free _ _ _ hf⟩

theorem DestroyN_keeps_owned (P : PoolPolicy) (T : ChunkType) (wf : P.Pool → P.Sys → Prop)
    (allocated : P.Pool → Nat → Prop) (hP : PolicyContract P wf allocated) (w : World P)
    (tid ptr q : Nat) (count : Int) (h : owned P w tid ptr) :
    owned P (DestroyN P T w tid q count).2 tid ptr := by
  obtain ⟨p, hp, hf⟩ := h
  unfold DestroyN
  rw [GetMemoryPool_bound P T w tid p hp]
  simp only
  by_cases hq : q = 0
  · simp only [hq, if_true]
    exact ⟨p, hp, hf⟩
  · simp only [hq, if_false]
    by_cases hfq : P.is_from p q = false
    · simp only [hfq, if_true]
      exact ⟨p, hp, hf⟩
    · simp only [hfq, if_false]
      exact ⟨P.ordered_free p q (int_to_size count), by simp,
        hP.is_from_ordered_free _ _ _ _ hf⟩

/-- A call that is not a purge or a release by thread `tid` keeps every pointer the pool of
`tid` recognises recognised. -/
theorem step_owned (P : PoolPolicy) (T : ChunkType) (wf : P.Pool → P.Sys → Prop)
    (allocated : P.Pool → Nat → Prop) (hP : PolicyContract P wf allocated) (w : World P)
    (tid ptr : Nat) (op : Op) (hop : op.drops tid = false) (h : owned P w tid ptr) :
    owned P (step P T w op) tid ptr := by
  have hother : ∀ v : World P, v.tss tid = w.tss tid → owned P v tid ptr := by
    intro v hv
    obtain ⟨p, hp, hf⟩ := h
    exact ⟨p, by rw [hv, hp], hf⟩
  cases op with
  | create t =>
    by_cases ht : t = tid
    · subst ht; exact Create_owned P T wf allocated hP w t ptr h
    · exact hother _ (Create_other P T w t tid (Ne.symm ht))
  | createN t c =>
    by_cases ht : t = tid
    · subst ht; exact CreateN_owned P T wf allocated hP w t ptr c h
    · exact hother _ (CreateN_other P T w t tid c (Ne.symm ht))
  | destroy t q =>
    by_cases ht : t = tid
    · subst ht; exact Destroy_keeps_owned P T wf allocated hP w t ptr q h
    · exact hother _ (Destroy_other P T w t tid q (Ne.symm ht))
  | destroyN t q c =>
    by_cases ht : t = tid
    · subst ht; exact DestroyN_keeps_owned P T wf allocated hP w t ptr q c h
    · exact hother _ (DestroyN_other P T w t tid q c (Ne.symm ht))
  | purge t =>
    have ht : t ≠ tid := by simpa [Op.drops] using hop
    exact hother _ (PurgeMemory_other P T w t tid (Ne.symm ht))
  | release t =>
    have ht : t ≠ tid := by simpa [Op.drops] using hop
    exact hother _ (ReleaseMemoryPool_other P w t tid (Ne.symm ht))

theorem run_owned (P : PoolPolicy) (T : ChunkType) (wf : P.Pool → P.Sys → Prop)
    (allocated : P.Pool → Nat → Prop) (hP : PolicyContract P wf allocated)
    (tid ptr : Nat) (ops : List Op) :
    ∀ w : World P, (∀ op ∈ ops, op.drops tid = false) → owned P w tid ptr →
      owned P (run P T w ops) tid ptr := by
  induction ops with
  | nil => intro w _ h; exact h
  | cons op rest ih =>
    intro w hops h
    have h1 := step_owned P T wf allocated hP w tid ptr op (hops op (List.mem_cons_self _ _)) h
    exact ih (step P T w op) (fun o ho => hops o (List.mem_cons_of_mem _ ho)) h1

theorem CreateN_success (P : PoolPolicy) (T : ChunkType) (w : World P) (tid : Nat) (count : Int)
    (h : (CreateN P T w tid count).1 ≠ 0) :
    ∃ mem_pool w1 log1, GetMemoryPool P T w tid = (some mem_pool, w1) ∧
      CreateN P T w tid count =
        ((P.ordered_malloc mem_pool w1.sys (int_to_size count)).1,
         { tss := Function.update w1.tss tid
             (some (P.ordered_malloc mem_pool w1.sys (int_to_size count)).2.1),
           sys := (P.ordered_malloc mem_pool w1.sys (int_to_size count)).2.2, log := log1 }) := by
  unfold CreateN at h ⊢
  rcases hG : GetMemoryPool P T w tid with ⟨_ | mem_pool, w1⟩
  · rw [hG] at h; exact absurd rfl h
  · rw [hG] at h
    simp only at h ⊢
    by_cases h0 : (P.ordered_malloc mem_pool w1.sys (int_to_size count)).1 = 0
    · simp only [h0, if_true] at h; exact absurd rfl h
    · simp only [h0, if_false] at h ⊢
      rcases hL : construct_loop T (P.ordered_malloc mem_pool w1.sys (int_to_size count)).1 0
        count.toNat w1.log with ⟨_ | _, log1⟩
      · rw [hL] at h; exact absurd rfl h
      · exact ⟨mem_pool, w1, log1, rfl, rfl⟩

theorem Create_success (P : PoolPolicy) (T : ChunkType) (w : World P) (tid : Nat)
    (h : (Create P T w tid).1 ≠ 0) :
    ∃ mem_pool w1, GetMemoryPool P T w tid = (some mem_pool, w1) ∧
      Create P T w tid =
        ((P.malloc mem_pool w1.sys).1,
         { tss := Function.update w1.tss tid (some (P.malloc mem_pool w1.sys).2.1),
           sys := (P.malloc mem_pool w1.sys).2.2,
           log := w1.log ++ [Event.ctor (P.malloc mem_pool w1.sys).1] }) := by
  unfold Create at h ⊢
  rcases hG : GetMemoryPool P T w tid with ⟨_ | mem_pool, w1⟩
  · rw [hG] at h; exact absurd rfl h
  · rw [hG] at h
    simp only at h ⊢
    by_cases h0 : (P.malloc mem_pool w1.sys).1 = 0
    · simp only [h0, if_true] at h; exact absurd rfl h
    · simp only [h0, if_false] at h ⊢
      by_cases hc : T.ctor_ok w1.log (P.malloc mem_pool w1.sys).1 = true
      · simp only [hc, if_true]
        exact ⟨mem_pool, w1, rfl, rfl⟩
      · simp only [hc] at h
        exact absurd rfl h

theorem DestroyN_at (P : PoolPolicy) (T : ChunkType) (tss : Nat → Option P.Pool) (sys : P.Sys)
    (log : List Event) (tid ptr : Nat) (count : Int) (q : P.Pool) (hptr : ptr ≠ 0)
    (hf : P.is_from q ptr = true) :
    DestroyN P T { tss := Function.update tss tid (some q), sys := sys, log := log } tid ptr
        count =
      (kSuccess, { tss := Function.update tss tid (some (P.ordered_free q ptr (int_to_size count))),
                   sys := sys, log := log }) := by
  simp [DestroyN, hptr, GetMemoryPool, hf]

theorem Destroy_of_owned (P : PoolPolicy) (T : ChunkType) (wf : P.Pool → P.Sys → Prop)
    (allocated : P.Pool → Nat → Prop) (hP : PolicyContract P wf allocated) (w : World P)
    (tid ptr : Nat) (hptr : ptr ≠ 0) (h : owned P w tid ptr) :
    (Destroy P T w tid ptr).1 = kSuccess ∧
    ∀ a, allocated_in allocated (Destroy P T w tid ptr).2 tid a ↔
      (allocated_in allocated w tid a ∧ a ≠ ptr) := by
  obtain ⟨p, hp, hf⟩ := h
  have hD : Destroy P T w tid ptr =
      (kSuccess, { w with tss := Function.update w.tss tid (some (P.free p ptr)) }) := by
    simp [Destroy, hptr, GetMemoryPool_bound P T w tid p hp, hf]
  rw [hD]
  refine ⟨rfl, ?_⟩
  intro a
  rw [allocated_in_update, hP.free_allocated]
  simp [allocated_in, hp]

theorem DestroyN_of_owned (P : PoolPolicy) (T : ChunkType) (wf : P.Pool → P.Sys → Prop)
    (allocated : P.Pool → Nat → Prop) (hP : PolicyContract P wf allocated) (w : World P)
    (tid ptr : Nat) (count : Int) (hptr : ptr ≠ 0) (h : owned P w tid ptr) :
    (DestroyN P T w tid ptr count).1 = kSuccess ∧
    ∀ a, allocated_in allocated (DestroyN P T w tid ptr count).2 tid a ↔
      (allocated_in allocated w tid a ∧ ¬ (ptr ≤ a ∧ a < ptr + int_to_size count)) := by
  obtain ⟨p, hp, hf⟩ := h
  have hD : DestroyN P T w tid ptr count =
      (kSuccess, { w with
        tss := Function.update w.tss tid (some (P.ordered_free p ptr (int_to_size count))) }) := by
    simp [DestroyN, hptr, GetMemoryPool_bound P T w tid p hp, hf]
  rw [hD]
  refine ⟨rfl, ?_⟩
  intro a
  rw [allocated_in_update, hP.ordered_free_allocated]
  simp [allocated_in, hp]

theorem int_to_size_natCast (n : Nat) (h : n < 2 ^ 31) : int_to_size (n : Int) = n := by
  rw [int_to_size_small (n : Int) (Int.natCast_nonneg n) (by exact_mod_cast h)]
  simp

/-- C6: creation and destruction on one thread are symmetric. In a state whose pools are well
formed, with a policy that keeps its contract, for every count `n` with `1 ≤ n ≤ INT_MAX`: if
`Create(n)` returns a non-null `ptr`, the chunks allocated from the thread's pool afterwards are
those allocated before together with the `n` chunks from `ptr`, none of which was allocated
before, so their number has grown by `n`; `Destroy(ptr, n)` on the same thread then returns
`kSuccess` and the allocated chunks are again those from before `Create(n)`, their number back at
the earlier value. After any sequence of calls by any threads in which the creating thread
neither purges nor releases, `Destroy(ptr, n)` on the creating thread still returns `kSuccess` and
takes exactly the `n` chunks from `ptr` out of the allocated chunks. Likewise, if `Create()`
returns a non-null `ptr`, then after any such sequence `Destroy(ptr)` on the creating thread
returns `kSuccess` and takes exactly that chunk out of the allocated chunks: pointers can be
destroyed in any order. -/
theorem Create_Destroy_round_trip (P : PoolPolicy) (T : ChunkType) (wf : P.Pool → P.Sys → Prop)
    (allocated : P.Pool → Nat → Prop) (hP : PolicyContract P wf allocated) (w : World P)
    (tid n : Nat) (ops : List Op) (hw : WorldWF wf w) (hn1 : 1 ≤ n) (hn2 : n < 2 ^ 31)
    (hops : ∀ op ∈ ops, op.drops tid = false) :
    ((CreateN P T w tid n).1 ≠ 0 →
      (DestroyN P T (CreateN P T w tid n).2 tid (CreateN P T w tid n).1 n).1 = kSuccess ∧
      (∀ a, allocated_in allocated (CreateN P T w tid n).2 tid a ↔
        (allocated_in allocated w tid a ∨
          ((CreateN P T w tid n).1 ≤ a ∧ a < (CreateN P T w tid n).1 + n))) ∧
      (∀ a, (CreateN P T w tid n).1 ≤ a → a < (CreateN P T w tid n).1 + n →
        ¬ allocated_in allocated w tid a) ∧
      (∀ a, allocated_in allocated
          (DestroyN P T (CreateN P T w tid n).2 tid (CreateN P T w tid n).1 n).2 tid a ↔
        allocated_in allocated w tid a) ∧
      Set.ncard {a | allocated_in allocated (CreateN P T w tid n).2 tid a} =
        Set.ncard {a | allocated_in allocated w tid a} + n ∧
      Set.ncard {a | allocated_in allocated
          (DestroyN P T (CreateN P T w tid n).2 tid (CreateN P T w tid n).1 n).2 tid a} + n =
        Set.ncard {a | allocated_in allocated (CreateN P T w tid n).2 tid a} ∧
      (DestroyN P T (run P T (CreateN P T w tid n).2 ops) tid (CreateN P T w tid n).1 n).1 =
        kSuccess ∧
      (∀ a, allocated_in allocated
          (DestroyN P T (run P T (CreateN P T w tid n).2 ops) tid (CreateN P T w tid n).1 n).2
          tid a ↔
        (allocated_in allocated (run P T (CreateN P T w tid n).2 ops) tid a ∧
          ¬ ((CreateN P T w tid n).1 ≤ a ∧ a < (CreateN P T w tid n).1 + n)))) ∧
    ((Create P T w tid).1 ≠ 0 →
      (Destroy P T (run P T (Create P T w tid).2 ops) tid (Create P T w tid).1).1 = kSuccess ∧
      (∀ a, allocated_in allocated
          (Destroy P T (run P T (Create P T w tid).2 ops) tid (Create P T w tid).1).2 tid a ↔
        (allocated_in allocated (run P T (Create P T w tid).2 ops) tid a ∧
          a ≠ (Create P T w tid).1))) := by
  have hsz : int_to_size (n : Int) = n := int_to_size_natCast n hn2
  constructor
  · intro hN
    have hrunN : (DestroyN P T (run P T (CreateN P T w tid n).2 ops) tid
          (CreateN P T w tid n).1 n).1 = kSuccess ∧
        (∀ a, allocated_in allocated
            (DestroyN P T (run P T (CreateN P T w tid n).2 ops) tid (CreateN P T w tid n).1 n).2
            tid a ↔
          (allocated_in allocated (run P T (CreateN P T w tid n).2 ops) tid a ∧
            ¬ ((CreateN P T w tid n).1 ≤ a ∧ a < (CreateN P T w tid n).1 + n))) := by
      obtain ⟨mp, v1, l1, hG1, hC1⟩ := CreateN_success P T w tid n hN
      have hwf1 := GetMemoryPool_wf P T wf allocated hP w v1 tid mp hw hG1
      have hN1 := hN
      rw [hC1] at hN1
      simp only at hN1
      have howns1 := hP.ordered_malloc_owns mp v1.sys _ hwf1 hN1
      have hown : owned P (CreateN P T w tid n).2 tid (CreateN P T w tid n).1 := by
        rw [hC1]
        exact ⟨(P.ordered_malloc mp v1.sys (int_to_size (n : Int))).2.1, by simp, howns1⟩
      have hfinal := run_owned P T wf allocated hP tid (CreateN P T w tid n).1 ops
        (CreateN P T w tid n).2 hops hown
      have hres := DestroyN_of_owned P T wf allocated hP _ tid _ (n : Int) hN hfinal
      rw [hsz] at hres
      exact hres
    obtain ⟨mem_pool, w1, log1, hG, hC⟩ := CreateN_success P T w tid n hN
    have hwf := GetMemoryPool_wf P T wf allocated hP w w1 tid mem_pool hw hG
    have hal := GetMemoryPool_allocated P T wf allocated hP w w1 tid mem_pool hG
    rw [hC] at hN
    rw [hC]
    rw [hsz] at hN ⊢
    simp only at hN ⊢
    have howns := hP.ordered_malloc_owns mem_pool w1.sys n hwf hN
    have hD := DestroyN_at P T w1.tss (P.ordered_malloc mem_pool w1.sys n).2.2 log1 tid
      (P.ordered_malloc mem_pool w1.sys n).1 n (P.ordered_malloc mem_pool w1.sys n).2.1 hN howns
    rw [hsz] at hD
    rw [hD]
    have hA1 : ∀ a, allocated_in allocated
        ({ tss := Function.update w1.tss tid (some (P.ordered_malloc mem_pool w1.sys n).2.1),
           sys := (P.ordered_malloc mem_pool w1.sys n).2.2, log := log1 } : World P) tid a ↔
        (allocated_in allocated w tid a ∨
          ((P.ordered_malloc mem_pool w1.sys n).1 ≤ a ∧
            a < (P.ordered_malloc mem_pool w1.sys n).1 + n)) := by
      intro a
      rw [allocated_in_update, hP.ordered_malloc_allocated mem_pool w1.sys n hwf hN a, hal a]
    have hfresh : ∀ a, (P.ordered_malloc mem_pool w1.sys n).1 ≤ a →
        a < (P.ordered_malloc mem_pool w1.sys n).1 + n → ¬ allocated_in allocated w tid a := by
      intro a ha1 ha2
      rw [← hal a]
      exact hP.ordered_malloc_fresh mem_pool w1.sys n hwf hN a ha1 ha2
    have hA2 : ∀ a, allocated_in allocated
        ({ tss := Function.update w1.tss tid
             (some (P.ordered_free (P.ordered_malloc mem_pool w1.sys n).2.1
               (P.ordered_malloc mem_pool w1.sys n).1 n)),
           sys := (P.ordered_malloc mem_pool w1.sys n).2.2, log := log1 } : World P) tid a ↔
        allocated_in allocated w tid a := by
      intro a
      rw [allocated_in_update, contract_ordered_malloc_free P wf allocated hP mem_pool w1.sys n hwf hN a,
        hal a]
    have hfin : {a | allocated_in allocated w tid a}.Finite := by
      have : {a | allocated_in allocated w tid a} = {a | allocated mem_pool a} := by
        ext a; exact (hal a).symm
      rw [this]
      exact hP.allocated_finite mem_pool
    have hcard : Set.ncard {a | allocated_in allocated
        ({ tss := Function.update w1.tss tid (some (P.ordered_malloc mem_pool w1.sys n).2.1),
           sys := (P.ordered_malloc mem_pool w1.sys n).2.2, log := log1 } : World P) tid a} =
        Set.ncard {a | allocated_in allocated w tid a} + n := by
      have hset : {a | allocated_in allocated
          ({ tss := Function.update w1.tss tid (some (P.ordered_malloc mem_pool w1.sys n).2.1),
             sys := (P.ordered_malloc mem_pool w1.sys n).2.2, log := log1 } : World P) tid a} =
          {a | allocated_in allocated w tid a} ∪
            Set.Ico (P.ordered_malloc mem_pool w1.sys n).1
              ((P.ordered_malloc mem_pool w1.sys n).1 + n) := by
        ext a
        simp only [Set.mem_setOf_eq, Set.mem_union, Set.mem_Ico]
        exact hA1 a
      have hdisj : Disjoint {a | allocated_in allocated w tid a}
          (Set.Ico (P.ordered_malloc mem_pool w1.sys n).1
            ((P.ordered_malloc mem_pool w1.sys n).1 + n)) := by
        rw [Set.disjoint_left]
        intro a ha hb
        exact hfresh a hb.1 hb.2 ha
      rw [hset, Set.ncard_union_eq hdisj hfin (Set.finite_Ico _ _)]
      congr 1
      rw [Set.ncard_eq_toFinset_card', Set.toFinset_Ico, Nat.card_Ico]
      omega
    have hcard2 : Set.ncard {a | allocated_in allocated
        ({ tss := Function.update w1.tss tid
             (some (P.ordered_free (P.ordered_malloc mem_pool w1.sys n).2.1
               (P.ordered_malloc mem_pool w1.sys n).1 n)),
           sys := (P.ordered_malloc mem_pool w1.sys n).2.2, log := log1 } : World P) tid a} =
        Set.ncard {a | allocated_in allocated w tid a} := by
      congr 1
      ext a
      exact hA2 a
    refine ⟨rfl, hA1, hfresh, hA2, hcard, ?_, ?_, ?_⟩
    · rw [hcard2, hcard]
    · have := hrunN.1
      rw [hC] at this
      rw [hsz] at this
      exact this
    · have := hrunN.2
      rw [hC] at this
      rw [hsz] at this
      exact this
  · intro h1
    have hrun1 : (Destroy P T (run P T (Create P T w tid).2 ops) tid (Create P T w tid).1).1 =
          kSuccess ∧
        (∀ a, allocated_in allocated
            (Destroy P T (run P T (Create P T w tid).2 ops) tid (Create P T w tid).1).2 tid a ↔
          (allocated_in allocated (run P T (Create P T w tid).2 ops) tid a ∧
            a ≠ (Create P T w tid).1)) := by
      obtain ⟨mp, v1, hG1, hC1⟩ := Create_success P T w tid h1
      have hwf1 := GetMemoryPool_wf P T wf allocated hP w v1 tid mp hw hG1
      have h2 := h1
      rw [hC1] at h2
      simp only at h2
      have howns1 := hP.malloc_owns mp v1.sys hwf1 h2
      have hown : owned P (Create P T w tid).2 tid (Create P T w tid).1 := by
        rw [hC1]
        exact ⟨(P.malloc mp v1.sys).2.1, by simp, howns1⟩
      have hfinal := run_owned P T wf allocated hP tid (Create P T w tid).1 ops
        (Create P T w tid).2 hops hown
      exact Destroy_of_owned P T wf allocated hP _ tid _ h1 hfinal
    exact hrun1

/-- From the initial state thread 0 creates an array of 5 objects at address 1 and destroys it
with the same count: success, and the number of allocated chunks is back where it was. An object
created by thread 0 at address 1 is still accepted by `Destroy` after the calls of
`laterCalls`. -/
theorem Create_Destroy_round_trip_witness :
    (CreateN boostPool plainType (initWorld 1000) 0 5).1 = 1 ∧
    (DestroyN boostPool plainType (CreateN boostPool plainType (initWorld 1000) 0 5).2 0
      (CreateN boostPool plainType (initWorld 1000) 0 5).1 5).1 = kSuccess ∧
    Set.ncard {a | allocated_in boost_allocated
        (CreateN boostPool plainType (initWorld 1000) 0 5).2 0 a} =
      Set.ncard {a | allocated_in boost_allocated (initWorld 1000) 0 a} + 5 ∧
    (Destroy boostPool plainType
      (run boostPool plainType (Create boostPool plainType (initWorld 1000) 0).2 laterCalls) 0
      (Create boostPool plainType (initWorld 1000) 0).1).1 = kSuccess :=
  have hN : (CreateN boostPool plainType (initWorld 1000) 0 5).1 = 1 := rfl
  have h1 : (Create boostPool plainType (initWorld 1000) 0).1 = 1 := rfl
  have h := Create_Destroy_round_trip boostPool plainType boost_wf boost_allocated
    boostPool_contract (initWorld 1000) 0 5 laterCalls (WorldWF_init 1000) (by decide)
    (by decide) (by decide)
  have hA := h.1
    (by show (CreateN boostPool plainType (initWorld 1000) 0 5).1 ≠ 0; rw [hN]; decide)
  have hB := h.2 (by rw [h1]; decide)
  ⟨hN, hA.1, hA.2.2.2.2.1, hB.1⟩

/-- Five objects created by one thread and destroyed in reverse order: every `Destroy` returns
`kSuccess`. -/
theorem five_objects_reverse_order :
    (Destroy boostPool plainType fiveObjects 0 5).1 = kSuccess ∧
    (Destroy boostPool plainType
      (run boostPool plainType fiveObjects [Op.destroy 0 5]) 0 4).1 = kSuccess ∧
    (Destroy boostPool plainType
      (run boostPool plainType fiveObjects [Op.destroy 0 5, Op.destroy 0 4]) 0 3).1 = kSuccess ∧
    (Destroy boostPool plainType
      (run boostPool plainType fiveObjects [Op.destroy 0 5, Op.destroy 0 4, Op.destroy 0 3]) 0
      2).1 = kSuccess ∧
    (Destroy boostPool plainType
      (run boostPool plainType fiveObjects
        [Op.destroy 0 5, Op.destroy 0 4, Op.destroy 0 3, Op.destroy 0 2]) 0 1).1 = kSuccess ∧
    (run boostPool plainType fiveObjects
      [Op.destroy 0 5, Op.destroy 0 4, Op.destroy 0 3, Op.destroy 0 2, Op.destroy 0 1]).tss 0 =
      some { requested_size := 1, next_size := 64, start_size := 32, list := [(1, 32)],
             first := List.range' 1 32 } :=
  ⟨rfl, rfl, rfl, rfl, rfl, rfl⟩

/-! ## Lazy creation and re-creation (C8) -/

/-- C8 fails as stated: in the initial state the slot of thread 0 is unbound, the pool can be
constructed and bound and its `malloc` returns chunk 1, yet `Create()` returns null when the default
constructor of the pooled type throws; the new pool stays bound with the chunk back in the free
list. -/
theorem Create_lazy_counterexample :
    (initWorld 1000).tss 0 = none ∧
    boostPool.new_pool throwingType.sizeof (initWorld 1000).sys =
      some (freshPool, { brk := 0, avail := 999 }) ∧
    boostPool.tss_reset_ok { brk := 0, avail := 999 } = true ∧
    (boostPool.malloc freshPool { brk := 0, avail := 999 }).1 = 1 ∧
    (Create boostPool throwingType (initWorld 1000) 0).1 = 0 ∧
    ((Create boostPool throwingType (initWorld 1000) 0).2.tss 0).map (fun p => p.first) =
      some (List.range' 1 32) :=
  ⟨rfl, rfl, rfl, rfl, rfl, rfl⟩

/-- C8, amended: on a thread whose slot is unbound, when the pool can be constructed and bound,
`PurgeMemory()` returns `kSuccess` and binds the new pool, purged; when moreover `malloc` of the
new pool returns a chunk and the default constructor of the pooled type does not throw, `Create()`
returns that chunk, non-null and recognised by the pool now bound to the thread, with the
constructor run once on it. In every state `PurgeMemory()` returns `kNoMemPool` exactly when
`GetMemoryPool()` returns null: the thread has no pool and none can be constructed and bound. -/
theorem lazy_creation (P : PoolPolicy) (T : ChunkType) (wf : P.Pool → P.Sys → Prop)
    (allocated : P.Pool → Nat → Prop) (hP : PolicyContract P wf allocated) (w : World P)
    (tid : Nat) (p0 : P.Pool) (s1 : P.Sys) (hslot : w.tss tid = none)
    (hnew : P.new_pool T.sizeof w.sys = some (p0, s1)) (hbind : P.tss_reset_ok s1 = true) :
    (PurgeMemory P T w tid).1 = kSuccess ∧
    (PurgeMemory P T w tid).2.tss tid = some (P.purge_memory p0 s1).1 ∧
    ((P.malloc p0 s1).1 ≠ 0 → T.ctor_ok w.log (P.malloc p0 s1).1 = true →
      (Create P T w tid).1 = (P.malloc p0 s1).1 ∧
      (Create P T w tid).1 ≠ 0 ∧
      (Create P T w tid).2.tss tid = some (P.malloc p0 s1).2.1 ∧
      P.is_from (P.malloc p0 s1).2.1 (Create P T w tid).1 = true ∧
      (Create P T w tid).2.log = w.log ++ [Event.ctor (P.malloc p0 s1).1]) ∧
    (∀ v : World P, (PurgeMemory P T v tid).1 = kNoMemPool ↔
      (GetMemoryPool P T v tid).1 = none) ∧
    (∀ v : World P, (GetMemoryPool P T v tid).1 = none ↔
      v.tss tid = none ∧
        (P.new_pool T.sizeof v.sys = none ∨
          ∃ q0 t1, P.new_pool T.sizeof v.sys = some (q0, t1) ∧ P.tss_reset_ok t1 = false)) := by
  have hg := GetMemoryPool_fresh P T w tid p0 s1 hslot hnew hbind
  have hwf : wf p0 s1 := hP.new_pool_wf _ _ _ _ hnew
  have hPg : PurgeMemory P T w tid =
      (kSuccess,
       { tss := Function.update (Function.update w.tss tid (some p0)) tid
           (some (P.purge_memory p0 s1).1),
         sys := (P.purge_memory p0 s1).2, log := w.log }) := by
    simp [PurgeMemory, hg]
  refine ⟨by rw [hPg], by rw [hPg]; simp, ?_, ?_, fun v => GetMemoryPool_none_iff P T v tid⟩
  · intro hmalloc hctor
    have howns := hP.malloc_owns p0 s1 hwf hmalloc
    have hC : Create P T w tid =
        ((P.malloc p0 s1).1,
         { tss := Function.update (Function.update w.tss tid (some p0)) tid
             (some (P.malloc p0 s1).2.1),
           sys := (P.malloc p0 s1).2.2, log := w.log ++ [Event.ctor (P.malloc p0 s1).1] }) := by
      simp [Create, hg, hmalloc, hctor]
    exact ⟨by rw [hC], by rw [hC]; exact hmalloc, by rw [hC]; simp, by rw [hC]; exact howns,
      by rw [hC]⟩
  · intro v
    unfold PurgeMemory
    rcases hG : GetMemoryPool P T v tid with ⟨_ | q, v1⟩
    · simp
    · simp [kSuccess, kNoMemPool]

/-- After thread 0 has released its pool, `PurgeMemory()` succeeds and binds a fresh pool, and
`Create()` returns the non-null pointer 34 from a fresh pool that owns it. -/
theorem lazy_creation_witness :
    released.tss 0 = none ∧
    (PurgeMemory boostPool plainType released 0).1 = kSuccess ∧
    (PurgeMemory boostPool plainType released 0).2.tss 0 = some freshPool ∧
    (Create boostPool plainType released 0).1 = 34 ∧
    (Create boostPool plainType released 0).1 ≠ 0 :=
  have h := lazy_creation boostPool plainType boost_wf boost_allocated boostPool_contract
    released 0 freshPool { brk := 33, avail := 999 } rfl rfl rfl
  ⟨rfl, h.1, h.2.1, rfl, (h.2.2.1 (by decide) rfl).2.1⟩

/-! ## Well-formedness is kept by the operations of `boost::pool<>` -/

theorem boost_wf_mono (p : BoostPool) (s s1 : BoostSys) (h : boost_wf p s)
    (hs : s.brk ≤ s1.brk) : boost_wf p s1 := by
  refine ⟨h.1, ?_, h.2.2⟩
  intro b hb
  have := h.2.1 b hb
  exact ⟨this.1, le_trans this.2 hs⟩

theorem nodup_add_ordered_block (first : List Nat) (block n : Nat) (h : first.Nodup)
    (hd : ∀ a, block ≤ a → a < block + n → a ∉ first) :
    (add_ordered_block first block n).Nodup := by
  unfold add_ordered_block
  have hsplit := List.takeWhile_append_dropWhile (fun c => decide (c ≤ block)) first
  have hperm : List.Perm
      (first.takeWhile (fun c => decide (c ≤ block)) ++ List.range' block n ++
        first.dropWhile (fun c => decide (c ≤ block)))
      (List.range' block n ++ first) := by
    have h1 : List.Perm
        (first.takeWhile (fun c => decide (c ≤ block)) ++ List.range' block n)
        (List.range' block n ++ first.takeWhile (fun c => decide (c ≤ block))) :=
      List.perm_append_comm
    have h2 := List.Perm.append_right (first.dropWhile (fun c => decide (c ≤ block))) h1
    rw [List.append_assoc (List.range' block n), hsplit] at h2
    exact h2
  rw [hperm.nodup_iff, List.nodup_append]
  refine ⟨List.nodup_range' block n, h, ?_⟩
  intro a ha hb
  rw [List.mem_range'_1] at ha
  exact hd a ha.1 ha.2 hb

theorem boost_malloc_wf (p : BoostPool) (s : BoostSys) (hwf : boost_wf p s) :
    boost_wf (boost_malloc p s).2.1 (boost_malloc p s).2.2 ∧
      s.brk ≤ (boost_malloc p s).2.2.brk := by
  unfold boost_malloc
  cases hf : p.first with
  | cons c rest =>
    simp only
    refine ⟨⟨?_, hwf.2.1, ?_⟩, le_refl _⟩
    · intro x hx
      have := hwf.1 x (by rw [hf]; exact List.mem_cons_of_mem _ hx)
      simpa [boost_is_from] using this
    · have := hwf.2.2
      rw [hf] at this
      exact (List.nodup_cons.mp this).2
  | nil =>
    simp only
    rcases boost_malloc_need_resize_cases p s with ⟨k, base, s1, hs, he⟩ | ⟨ns, he⟩
    · rw [he]
      obtain ⟨hb, hbrk⟩ := sys_malloc_spec s s1 k base hs
      simp only
      refine ⟨?_, by omega⟩
      cases k with
      | zero =>
        rw [boost_grow_zero p base hf]
        refine ⟨?_, ?_, ?_⟩
        · intro x hx
          simp only [hf, List.not_mem_nil] at hx
        · intro b hbl
          rcases List.mem_cons.mp hbl with h | h
          · subst h; simp only; omega
          · have := hwf.2.1 b h
            exact ⟨this.1, by omega⟩
        · simp only [hf]; exact List.nodup_nil
      | succ k =>
        rw [boost_grow_succ p k base hf]
        refine ⟨?_, ?_, ?_⟩
        · intro x hx
          simp only [List.mem_range'_1] at hx
          rw [boost_is_from_iff]
          exact ⟨(base, k + 1), List.mem_cons_self _ _, by simp only; omega, by simp only; omega⟩
        · intro b hbl
          rcases List.mem_cons.mp hbl with h | h
          · subst h; simp only; omega
          · have := hwf.2.1 b h
            exact ⟨this.1, by omega⟩
        · exact List.nodup_range' _ _
    · rw [he]
      exact ⟨⟨hwf.1, hwf.2.1, hwf.2.2⟩, le_refl _⟩

theorem boost_malloc_not_free (p : BoostPool) (s : BoostSys) (hwf : boost_wf p s)
    (h : (boost_malloc p s).1 ≠ 0) : (boost_malloc p s).1 ∉ (boost_malloc p s).2.1.first := by
  unfold boost_malloc at h ⊢
  cases hf : p.first with
  | cons c rest =>
    simp only
    have := hwf.2.2
    rw [hf] at this
    exact (List.nodup_cons.mp this).1
  | nil =>
    simp only [hf] at h ⊢
    rcases boost_malloc_need_resize_cases p s with ⟨k, base, s1, hs, he⟩ | ⟨ns, he⟩
    · rw [he] at h ⊢
      cases k with
      | zero => rw [boost_grow_zero p base hf] at h; exact absurd rfl h
      | succ k =>
        rw [boost_grow_succ p k base hf]
        simp only [List.mem_range'_1]
        omega
    · rw [he] at h
      exact absurd rfl h

theorem boost_ordered_malloc_wf (p : BoostPool) (s : BoostSys) (n : Nat) (hwf : boost_wf p s) :
    boost_wf (boost_ordered_malloc p s n).2.1 (boost_ordered_malloc p s n).2.2 ∧
      s.brk ≤ (boost_ordered_malloc p s n).2.2.brk := by
  by_cases hn : n = 0
  · subst hn
    rw [boost_ordered_malloc_zero]
    exact ⟨hwf, le_refl _⟩
  rcases boost_ordered_malloc_cases p s n hn with
    ⟨r, rest, hm, he⟩ | ⟨k, base, s1, hm, hnk, hs, he⟩ | ⟨ns, he⟩
  · rw [he]
    obtain ⟨-, hmem, hnd⟩ := malloc_n_spec n p.first r rest hm
    refine ⟨⟨?_, hwf.2.1, (hnd hwf.2.2).1⟩, le_refl _⟩
    intro x hx
    have := hwf.1 x ((hmem x).mpr (Or.inl hx))
    simpa [boost_is_from] using this
  · rw [he]
    obtain ⟨hb, hbrk⟩ := sys_malloc_spec s s1 k base hs
    obtain ⟨-, hfresh⟩ := boost_fresh_block p s s1 k base hwf hs
    refine ⟨⟨?_, ?_, ?_⟩, by simp only; omega⟩
    · intro x hx
      rw [boost_is_from_iff]
      rcases (mem_grow_ordered_first p n k base x hnk).mp hx with h | h
      · obtain ⟨b, hbl, h1, h2⟩ := (boost_is_from_iff p x).mp (hwf.1 x h)
        exact ⟨b, (mem_grow_ordered_list p n k base b).mpr (Or.inr hbl), h1, h2⟩
      · exact ⟨(base, k), (mem_grow_ordered_list p n k base _).mpr (Or.inl rfl),
          by simp only; omega, by simp only; omega⟩
    · intro b hbl
      rcases (mem_grow_ordered_list p n k base b).mp hbl with h | h
      · subst h; simp only; omega
      · have := hwf.2.1 b h
        exact ⟨this.1, by simp only; omega⟩
    · simp only [boost_grow_ordered]
      by_cases hlt : n < k
      · simp only [hlt, if_true]
        apply nodup_add_ordered_block _ _ _ hwf.2.2
        intro a ha1 _ hmem
        have := hfresh a (by omega)
        rw [hwf.1 a hmem] at this
        cases this
      · simp only [hlt, if_false]
        exact hwf.2.2
  · rw [he]
    exact ⟨⟨hwf.1, hwf.2.1, hwf.2.2⟩, le_refl _⟩

theorem boost_free_wf (p : BoostPool) (s : BoostSys) (c : Nat) (hwf : boost_wf p s)
    (hc : boost_allocated p c) : boost_wf (boost_free p c) s := by
  refine ⟨?_, hwf.2.1, ?_⟩
  · intro x hx
    rcases List.mem_cons.mp hx with h | h
    · subst h; exact hc.1
    · exact hwf.1 x h
  · exact List.nodup_cons.mpr ⟨hc.2, hwf.2.2⟩

theorem boost_ordered_free_wf (p : BoostPool) (s : BoostSys) (c n : Nat) (hwf : boost_wf p s)
    (hc : ∀ a, c ≤ a → a < c + n → boost_allocated p a) :
    boost_wf (boost_ordered_free p c n) s := by
  refine ⟨?_, hwf.2.1, ?_⟩
  · intro x hx
    rcases (mem_add_ordered_block p.first c n x).mp hx with h | h
    · exact hwf.1 x h
    · exact (hc x h.1 h.2).1
  · exact nodup_add_ordered_block _ _ _ hwf.2.2 (fun a h1 h2 => (hc a h1 h2).2)

theorem sys_free_foldl_brk (l : List (Nat × Nat)) :
    ∀ s : BoostSys, (l.foldl (fun s1 b => sys_free s1 b.2) s).brk = s.brk := by
  induction l with
  | nil => intro s; rfl
  | cons b rest ih =>
    intro s
    rw [List.foldl_cons, ih]
    rfl

theorem boost_purge_memory_wf (p : BoostPool) (s : BoostSys) (hwf : boost_wf p s) :
    boost_wf (boost_purge_memory p s).1 (boost_purge_memory p s).2 ∧
      (boost_purge_memory p s).2.brk = s.brk := by
  unfold boost_purge_memory
  cases hl : p.list with
  | nil => exact ⟨hwf, rfl⟩
  | cons b rest =>
    simp only
    refine ⟨⟨?_, ?_, ?_⟩, sys_free_foldl_brk _ s⟩
    · intro x hx; simp at hx
    · intro x hx; simp at hx
    · exact List.nodup_nil

theorem boost_delete_brk (p : BoostPool) (s : BoostSys) : (boost_delete p s).brk = s.brk := by
  unfold boost_delete boost_purge_memory
  cases hl : p.list with
  | nil => rfl
  | cons b rest => exact sys_free_foldl_brk _ s

theorem boost_new_brk (sz : Nat) (s s1 : BoostSys) (p : BoostPool)
    (h : boost_new sz s = some (p, s1)) : s1.brk = s.brk := by
  unfold boost_new at h
  split at h
  · simp only [Option.some.injEq, Prod.mk.injEq] at h
    obtain ⟨-, h2⟩ := h
    subst h2
    rfl
  · cases h

/-! ## The invariant is kept by the operations of the manager -/

theorem boost_malloc_from (p : BoostPool) (s : BoostSys) (a : Nat)
    (h : boost_is_from (boost_malloc p s).2.1 a = true) : boost_is_from p a = true ∨ s.brk < a := by
  unfold boost_malloc at h
  cases hf : p.first with
  | cons c rest =>
    simp only [hf] at h
    exact Or.inl (by simpa [boost_is_from] using h)
  | nil =>
    simp only [hf] at h
    rcases boost_malloc_need_resize_cases p s with ⟨k, base, s1, hs, he⟩ | ⟨ns, he⟩
    · rw [he] at h
      obtain ⟨hb, -⟩ := sys_malloc_spec s s1 k base hs
      obtain ⟨b, hbl, h1, h2⟩ := (boost_is_from_iff _ a).mp h
      simp only [boost_grow] at hbl
      rcases List.mem_cons.mp hbl with hx | hx
      · subst hx
        simp only at h1
        exact Or.inr (by omega)
      · exact Or.inl ((boost_is_from_iff p a).mpr ⟨b, hx, h1, h2⟩)
    · rw [he] at h
      exact Or.inl (by simpa [boost_is_from] using h)

theorem boost_ordered_malloc_from (p : BoostPool) (s : BoostSys) (n a : Nat)
    (h : boost_is_from (boost_ordered_malloc p s n).2.1 a = true) :
    boost_is_from p a = true ∨ s.brk < a := by
  by_cases hn : n = 0
  · subst hn
    rw [boost_ordered_malloc_zero] at h
    exact Or.inl h
  rcases boost_ordered_malloc_cases p s n hn with
    ⟨r, rest, hm, he⟩ | ⟨k, base, s1, hm, hnk, hs, he⟩ | ⟨ns, he⟩
  · rw [he] at h
    exact Or.inl (by simpa [boost_is_from] using h)
  · rw [he] at h
    obtain ⟨hb, -⟩ := sys_malloc_spec s s1 k base hs
    obtain ⟨b, hbl, h1, h2⟩ := (boost_is_from_iff _ a).mp h
    rcases (mem_grow_ordered_list p n k base b).mp hbl with hx | hx
    · subst hx
      simp only at h1
      exact Or.inr (by omega)
    · exact Or.inl ((boost_is_from_iff p a).mpr ⟨b, hx, h1, h2⟩)
  · rw [he] at h
    exact Or.inl (by simpa [boost_is_from] using h)

theorem boost_wf_below (p : BoostPool) (s : BoostSys) (a : Nat) (hwf : boost_wf p s)
    (h : boost_is_from p a = true) : a < s.brk := by
  obtain ⟨b, hbl, -, h2⟩ := (boost_is_from_iff p a).mp h
  have := (hwf.2.1 b hbl).2
  omega

/-- The invariant survives when the pool of one thread is replaced by a well-formed pool that
recognises only addresses the old pool recognised or addresses the system had not handed out. -/
theorem boost_inv_set (w : World boostPool) (tid : Nat) (q : BoostPool) (s1 : BoostSys)
    (l : List Event) (hinv : boost_inv w) (hq : boost_wf q s1) (hmono : w.sys.brk ≤ s1.brk)
    (hfrom : ∀ a, boost_is_from q a = true →
      (∃ p, w.tss tid = some p ∧ boost_is_from p a = true) ∨ w.sys.brk < a) :
    boost_inv ({ tss := Function.update w.tss tid (some q), sys := s1, log := l } :
      World boostPool) := by
  obtain ⟨hw, hd⟩ := hinv
  have key : ∀ t1 p1, t1 ≠ tid → w.tss t1 = some p1 → ∀ a, boost_is_from q a = true →
      boost_is_from p1 a = false := by
    intro t1 p1 ht1 hp1 a ha
    rcases hfrom a ha with ⟨p, hp, hpa⟩ | hlt
    · exact hd tid t1 p p1 (Ne.symm ht1) hp hp1 a hpa
    · cases hfa : boost_is_from p1 a with
      | false => rfl
      | true =>
        have := boost_wf_below p1 w.sys a (hw t1 p1 hp1) hfa
        omega
  constructor
  · intro t p ht
    by_cases htt : t = tid
    · subst htt
      simp only [Function.update_same, Option.some.injEq] at ht
      subst ht
      exact hq
    · simp only [Function.update_noteq htt] at ht
      exact boost_wf_mono p w.sys s1 (hw t p ht) hmono
  · intro t t1 p p1 hne ht ht1 a ha
    by_cases htt : t = tid
    · subst htt
      simp only [Function.update_same, Option.some.injEq] at ht
      subst ht
      have h1 : t1 ≠ t := Ne.symm hne
      simp only [Function.update_noteq h1] at ht1
      exact key t1 p1 h1 ht1 a ha
    · simp only [Function.update_noteq htt] at ht
      by_cases htt1 : t1 = tid
      · subst htt1
        simp only [Function.update_same, Option.some.injEq] at ht1
        subst ht1
        cases hfa : boost_is_from q a with
        | false => rfl
        | true =>
          have := key t p htt ht a hfa
          rw [ha] at this
          cases this
      · simp only [Function.update_noteq htt1] at ht1
        exact hd t t1 p p1 hne ht ht1 a ha

/-- The invariant survives when the slot of one thread is emptied. -/
theorem boost_inv_unset (w : World boostPool) (tid : Nat) (s1 : BoostSys) (l : List Event)
    (hinv : boost_inv w) (hmono : w.sys.brk ≤ s1.brk) :
    boost_inv ({ tss := Function.update w.tss tid none, sys := s1, log := l } :
      World boostPool) := by
  obtain ⟨hw, hd⟩ := hinv
  constructor
  · intro t p ht
    by_cases htt : t = tid
    · subst htt
      simp at ht
    · simp only [Function.update_noteq htt] at ht
      exact boost_wf_mono p w.sys s1 (hw t p ht) hmono
  · intro t t1 p p1 hne ht ht1 a ha
    by_cases htt : t = tid
    · subst htt
      simp at ht
    · by_cases htt1 : t1 = tid
      · subst htt1
        simp at ht1
      · simp only [Function.update_noteq htt] at ht
        simp only [Function.update_noteq htt1] at ht1
        exact hd t t1 p p1 hne ht ht1 a ha

theorem boost_new_is_from (sz : Nat) (s s1 : BoostSys) (p : BoostPool) (a : Nat)
    (h : boost_new sz s = some (p, s1)) : boost_is_from p a = false := by
  obtain ⟨hl, -⟩ := boost_new_spec sz s s1 p h
  simp [boost_is_from, hl]

theorem boost_GetMemoryPool_inv (T : ChunkType) (w : World boostPool) (tid : Nat)
    (hinv : boost_inv w) :
    boost_inv (GetMemoryPool boostPool T w tid).2 ∧
      (GetMemoryPool boostPool T w tid).2.sys.brk = w.sys.brk := by
  rcases GetMemoryPool_cases boostPool T w tid with
    ⟨p, hp, hG⟩ | ⟨p0, s1, hp, hnew, hb, hG⟩ | ⟨hp, hnew, hG⟩ | ⟨p0, s1, hp, hnew, hb, hG⟩
  · rw [hG]
    exact ⟨hinv, rfl⟩
  · rw [hG]
    have hbrk := boost_new_brk T.sizeof w.sys s1 p0 hnew
    refine ⟨boost_inv_set w tid p0 s1 w.log hinv (boost_new_wf _ _ _ _ hnew)
      (le_of_eq hbrk.symm) ?_, hbrk⟩
    intro a ha
    have := boost_new_is_from T.sizeof w.sys s1 p0 a hnew
    rw [ha] at this
    cases this
  · rw [hG]
    exact ⟨hinv, rfl⟩
  · rw [hG]
    have hbrk : (boost_delete p0 s1).brk = w.sys.brk := by
      rw [boost_delete_brk, boost_new_brk T.sizeof w.sys s1 p0 hnew]
    exact ⟨boost_inv_unset w tid _ w.log hinv (le_of_eq hbrk.symm), hbrk⟩

theorem boost_purge_memory_from (p : BoostPool) (s : BoostSys) (a : Nat)
    (h : boost_is_from (boost_purge_memory p s).1 a = true) : boost_is_from p a = true := by
  unfold boost_purge_memory at h
  cases hl : p.list with
  | nil =>
    simp only [hl] at h
    exact h
  | cons b rest =>
    simp only [hl] at h
    simp [boost_is_from] at h

theorem boost_slot_wf (w w1 : World boostPool) (T : ChunkType) (tid : Nat) (mem_pool : BoostPool)
    (hinv : boost_inv w) (hG : GetMemoryPool boostPool T w tid = (some mem_pool, w1)) :
    boost_inv w1 ∧ w1.tss tid = some mem_pool ∧ boost_wf mem_pool w1.sys := by
  have h1 := (boost_GetMemoryPool_inv T w tid hinv).1
  have h2 := GetMemoryPool_slot boostPool T w tid
  rw [hG] at h1 h2
  exact ⟨h1, h2, h1.1 tid mem_pool h2⟩

theorem boost_Create_inv (T : ChunkType) (w : World boostPool) (tid : Nat) (hinv : boost_inv w) :
    boost_inv (Create boostPool T w tid).2 := by
  unfold Create
  rcases hG : GetMemoryPool boostPool T w tid with ⟨_ | mem_pool, w1⟩
  · have h1 := (boost_GetMemoryPool_inv T w tid hinv).1
    rw [hG] at h1
    exact h1
  · obtain ⟨hinv1, hslot1, hwf⟩ := boost_slot_wf w w1 T tid mem_pool hinv hG
    obtain ⟨hmwf, hmono⟩ := boost_malloc_wf mem_pool w1.sys hwf
    have hfrom : ∀ a, boost_is_from (boost_malloc mem_pool w1.sys).2.1 a = true →
        (∃ p, w1.tss tid = some p ∧ boost_is_from p a = true) ∨ w1.sys.brk < a := by
      intro a ha
      exact (boost_malloc_from mem_pool w1.sys a ha).imp (fun h => ⟨mem_pool, hslot1, h⟩) id
    simp only
    by_cases h0 : (boostPool.malloc mem_pool w1.sys).1 = 0
    · simp only [h0, if_true]
      exact boost_inv_set w1 tid _ _ w1.log hinv1 hmwf hmono hfrom
    · simp only [h0, if_false]
      by_cases hc : T.ctor_ok w1.log (boostPool.malloc mem_pool w1.sys).1 = true
      · simp only [hc, if_true]
        exact boost_inv_set w1 tid _ _ _ hinv1 hmwf hmono hfrom
      · simp only [hc, Bool.false_eq_true, if_false]
        have hal : boost_allocated (boost_malloc mem_pool w1.sys).2.1
            (boost_malloc mem_pool w1.sys).1 :=
          ⟨boost_malloc_owns mem_pool w1.sys hwf h0, boost_malloc_not_free mem_pool w1.sys hwf h0⟩
        exact boost_inv_set w1 tid _ _ w1.log hinv1 (boost_free_wf _ _ _ hmwf hal) hmono hfrom

theorem boost_CreateN_inv (T : ChunkType) (w : World boostPool) (tid : Nat) (count : Int)
    (hinv : boost_inv w) : boost_inv (CreateN boostPool T w tid count).2 := by
  unfold CreateN
  rcases hG : GetMemoryPool boostPool T w tid with ⟨_ | mem_pool, w1⟩
  · have h1 := (boost_GetMemoryPool_inv T w tid hinv).1
    rw [hG] at h1
    exact h1
  · obtain ⟨hinv1, hslot1, hwf⟩ := boost_slot_wf w w1 T tid mem_pool hinv hG
    obtain ⟨hmwf, hmono⟩ := boost_ordered_malloc_wf mem_pool w1.sys (int_to_size count) hwf
    have hfrom : ∀ a,
        boost_is_from (boost_ordered_malloc mem_pool w1.sys (int_to_size count)).2.1 a = true →
        (∃ p, w1.tss tid = some p ∧ boost_is_from p a = true) ∨ w1.sys.brk < a := by
      intro a ha
      exact (boost_ordered_malloc_from mem_pool w1.sys _ a ha).imp
        (fun h => ⟨mem_pool, hslot1, h⟩) id
    simp only
    by_cases h0 : (boostPool.ordered_malloc mem_pool w1.sys (int_to_size count)).1 = 0
    · simp only [h0, if_true]
      exact boost_inv_set w1 tid _ _ w1.log hinv1 hmwf hmono hfrom
    · simp only [h0, if_false]
      rcases hL : construct_loop T
        (boostPool.ordered_malloc mem_pool w1.sys (int_to_size count)).1 0 count.toNat w1.log
        with ⟨_ | _, log1⟩
      · simp only
        have hal : ∀ a,
            (boost_ordered_malloc mem_pool w1.sys (int_to_size count)).1 ≤ a →
            a < (boost_ordered_malloc mem_pool w1.sys (int_to_size count)).1 +
              int_to_size count →
            boost_allocated (boost_ordered_malloc mem_pool w1.sys (int_to_size count)).2.1 a := by
          intro a ha1 ha2
          exact (boost_ordered_malloc_allocated mem_pool w1.sys _ hwf h0 a).mpr
            (Or.inr ⟨ha1, ha2⟩)
        exact boost_inv_set w1 tid _ _ log1 hinv1 (boost_ordered_free_wf _ _ _ _ hmwf hal)
          hmono hfrom
      · simp only
        exact boost_inv_set w1 tid _ _ log1 hinv1 hmwf hmono hfrom

theorem boost_Destroy_inv (T : ChunkType) (w : World boostPool) (tid ptr : Nat)
    (hinv : boost_inv w) (hr : respects w (Op.destroy tid ptr)) :
    boost_inv (Destroy boostPool T w tid ptr).2 := by
  unfold Destroy
  by_cases hptr : ptr = 0
  · simp only [hptr, if_true]
    exact hinv
  · simp only [hptr, if_false]
    rcases GetMemoryPool_cases boostPool T w tid with
      ⟨p, hp, hG⟩ | ⟨p0, s1, hp, hnew, hb, hG⟩ | ⟨hp, hnew, hG⟩ | ⟨p0, s1, hp, hnew, hb, hG⟩
    · rw [hG]
      simp only
      by_cases hf : boostPool.is_from p ptr = false
      · simp only [hf, if_true]
        exact hinv
      · simp only [hf, if_false]
        have hf1 : boost_is_from p ptr = true := by simpa using hf
        have hal := hr p hp hf1
        refine boost_inv_set w tid _ _ w.log hinv (boost_free_wf p w.sys ptr (hinv.1 tid p hp) hal)
          (le_refl _) ?_
        intro a ha
        exact Or.inl ⟨p, hp, ha⟩
    · have hinv1 := (boost_GetMemoryPool_inv T w tid hinv).1
      rw [hG] at hinv1 ⊢
      simp only
      have hf : boostPool.is_from p0 ptr = false := boost_new_is_from _ _ _ _ ptr hnew
      simp only [hf, if_true]
      exact hinv1
    · rw [hG]
      exact hinv
    · have hinv1 := (boost_GetMemoryPool_inv T w tid hinv).1
      rw [hG] at hinv1 ⊢
      exact hinv1

theorem boost_DestroyN_inv (T : ChunkType) (w : World boostPool) (tid ptr : Nat) (count : Int)
    (hinv : boost_inv w) (hr : respects w (Op.destroyN tid ptr count)) :
    boost_inv (DestroyN boostPool T w tid ptr count).2 := by
  unfold DestroyN
  by_cases hptr : ptr = 0
  · simp only [hptr, if_true]
    exact hinv
  · simp only [hptr, if_false]
    rcases GetMemoryPool_cases boostPool T w tid with
      ⟨p, hp, hG⟩ | ⟨p0, s1, hp, hnew, hb, hG⟩ | ⟨hp, hnew, hG⟩ | ⟨p0, s1, hp, hnew, hb, hG⟩
    · rw [hG]
      simp only
      by_cases hf : boostPool.is_from p ptr = false
      · simp only [hf, if_true]
        exact hinv
      · simp only [hf, if_false]
        have hf1 : boost_is_from p ptr = true := by simpa using hf
        have hal := hr p hp hf1
        refine boost_inv_set w tid _ _ w.log hinv
          (boost_ordered_free_wf p w.sys ptr _ (hinv.1 tid p hp) hal) (le_refl _) ?_
        intro a ha
        exact Or.inl ⟨p, hp, ha⟩
    · have hinv1 := (boost_GetMemoryPool_inv T w tid hinv).1
      rw [hG] at hinv1 ⊢
      simp only
      have hf : boostPool.is_from p0 ptr = false := boost_new_is_from _ _ _ _ ptr hnew
      simp only [hf, if_true]
      exact hinv1
    · rw [hG]
      exact hinv
    · have hinv1 := (boost_GetMemoryPool_inv T w tid hinv).1
      rw [hG] at hinv1 ⊢
      exact hinv1

theorem boost_PurgeMemory_inv (T : ChunkType) (w : World boostPool) (tid : Nat)
    (hinv : boost_inv w) : boost_inv (PurgeMemory boostPool T w tid).2 := by
  unfold PurgeMemory
  rcases hG : GetMemoryPool boostPool T w tid with ⟨_ | mem_pool, w1⟩
  · have h1 := (boost_GetMemoryPool_inv T w tid hinv).1
    rw [hG] at h1
    exact h1
  · obtain ⟨hinv1, hslot1, hwf⟩ := boost_slot_wf w w1 T tid mem_pool hinv hG
    obtain ⟨hpwf, hbrk⟩ := boost_purge_memory_wf mem_pool w1.sys hwf
    simp only
    refine boost_inv_set w1 tid _ _ w1.log hinv1 hpwf (le_of_eq hbrk.symm) ?_
    intro a ha
    exact Or.inl ⟨mem_pool, hslot1, boost_purge_memory_from mem_pool w1.sys a ha⟩

theorem boost_ReleaseMemoryPool_inv (w : World boostPool) (tid : Nat) (hinv : boost_inv w) :
    boost_inv (ReleaseMemoryPool boostPool w tid) := by
  unfold ReleaseMemoryPool
  cases h : w.tss tid with
  | none => exact hinv
  | some p =>
    exact boost_inv_unset w tid _ w.log hinv (le_of_eq (boost_delete_brk p w.sys).symm)

/-- Every call that keeps to the caller's side of the interface keeps the invariant. -/
theorem boost_step_inv (T : ChunkType) (w : World boostPool) (op : Op) (hinv : boost_inv w)
    (hr : respects w op) : boost_inv (step boostPool T w op) := by
  cases op with
  | create t => exact boost_Create_inv T w t hinv
  | createN t c => exact boost_CreateN_inv T w t c hinv
  | destroy t q => exact boost_Destroy_inv T w t q hinv hr
  | destroyN t q c => exact boost_DestroyN_inv T w t q c hinv hr
  | purge t => exact boost_PurgeMemory_inv T w t hinv
  | release t => exact boost_ReleaseMemoryPool_inv w t hinv

/-- The invariant holds in every state the process reaches from its start by calls that keep to
the caller's side of the interface. -/
theorem boost_run_inv (T : ChunkType) (ops : List Op) :
    ∀ w : World boostPool, boost_inv w → respects_all T w ops →
      boost_inv (run boostPool T w ops) := by
  induction ops with
  | nil => intro w h _; exact h
  | cons op rest ih =>
    intro w h hr
    exact ih (step boostPool T w op) (boost_step_inv T w op h hr.1) hr.2

theorem boost_inv_init (avail : Nat) : boost_inv (initWorld avail) := by
  refine ⟨WorldWF_init avail, ?_⟩
  intro t t1 p p1 _ ht
  simp [initWorld] at ht

/-- With `boost::pool<>`, a pointer created on thread `A` is never destroyed by another thread
`B`: in a state that satisfies the invariant, `Destroy` on `B` returns `kFromElse`, or
`kNoMemPool` when `B` has no pool and none can be constructed and bound; when `B` has a pool the
state is unchanged, and in every case the slot of `A` is. -/
theorem boost_cross_thread_destroy (T : ChunkType) (w : World boostPool) (A B : Nat)
    (hinv : boost_inv w) (hAB : A ≠ B) (hptr : (Create boostPool T w A).1 ≠ 0) :
    ((Destroy boostPool T (Create boostPool T w A).2 B (Create boostPool T w A).1).1 = kFromElse ∨
      (Destroy boostPool T (Create boostPool T w A).2 B (Create boostPool T w A).1).1 =
        kNoMemPool) ∧
    ((Create boostPool T w A).2.tss B ≠ none →
      Destroy boostPool T (Create boostPool T w A).2 B (Create boostPool T w A).1 =
        (kFromElse, (Create boostPool T w A).2)) ∧
    (Destroy boostPool T (Create boostPool T w A).2 B (Create boostPool T w A).1).2.tss A =
      (Create boostPool T w A).2.tss A := by
  have hinv1 := boost_Create_inv T w A hinv
  have hown : owned boostPool (Create boostPool T w A).2 A (Create boostPool T w A).1 := by
    obtain ⟨mp, v1, hG1, hC1⟩ := Create_success boostPool T w A hptr
    have hwf1 := (boost_slot_wf w v1 T A mp hinv hG1).2.2
    rw [hC1] at hptr ⊢
    exact ⟨(boostPool.malloc mp v1.sys).2.1, by simp, boost_malloc_owns mp v1.sys hwf1 hptr⟩
  obtain ⟨pA, hpA, hfA⟩ := hown
  refine ⟨?_, ?_, Destroy_other boostPool T _ B A _ hAB⟩
  · unfold Destroy
    simp only [hptr, if_false]
    rcases GetMemoryPool_cases boostPool T (Create boostPool T w A).2 B with
      ⟨p, hp, hG⟩ | ⟨p0, s1, hp, hnew, hb, hG⟩ | ⟨hp, hnew, hG⟩ | ⟨p0, s1, hp, hnew, hb, hG⟩
    · rw [hG]
      have hf : boostPool.is_from p (Create boostPool T w A).1 = false :=
        hinv1.2 A B pA p hAB hpA hp _ hfA
      simp only [hf, if_true]
      exact Or.inl trivial
    · rw [hG]
      have hf : boostPool.is_from p0 (Create boostPool T w A).1 = false :=
        boost_new_is_from _ _ _ _ _ hnew
      simp only [hf, if_true]
      exact Or.inl trivial
    · rw [hG]
      exact Or.inr rfl
    · rw [hG]
      exact Or.inr rfl
  · intro hB
    cases hp : (Create boostPool T w A).2.tss B with
    | none => exact absurd hp hB
    | some p =>
      have hf : boostPool.is_from p (Create boostPool T w A).1 = false :=
        hinv1.2 A B pA p hAB hpA hp _ hfA
      simp [Destroy, hptr, GetMemoryPool_bound boostPool T _ B p hp, hf]

/-! ## Destroying a pointer the pool does not own (C1) -/

/-- C1: when the calling thread's slot holds a pool and `is_from` of that pool rejects the
non-null pointer `ptr`, both `Destroy(ptr)` and `Destroy(ptr, count)` return `kFromElse` (-3) and
the whole state (every thread's slot and pool, the system allocator, the call record) is the same
after the call as before: nothing is freed. With `boost::pool<>` this is the case of every pointer
obtained from `Create()` on another thread: in a state that satisfies the invariant, `Destroy` on
a thread `B` with a pool, given the pointer thread `A` has just created, returns `kFromElse` and
leaves the state as it is. -/
theorem Destroy_not_owned (P : PoolPolicy) (T : ChunkType) (w : World P) (tid ptr : Nat)
    (count : Int) (mem_pool : P.Pool) (hptr : ptr ≠ 0) (hslot : w.tss tid = some mem_pool)
    (hfrom : P.is_from mem_pool ptr = false) :
    Destroy P T w tid ptr = (kFromElse, w) ∧ DestroyN P T w tid ptr count = (kFromElse, w) ∧
      kFromElse = -3 ∧
    (∀ (T1 : ChunkType) (v : World boostPool) (A B : Nat), boost_inv v → A ≠ B →
      (Create boostPool T1 v A).1 ≠ 0 → (Create boostPool T1 v A).2.tss B ≠ none →
      Destroy boostPool T1 (Create boostPool T1 v A).2 B (Create boostPool T1 v A).1 =
        (kFromElse, (Create boostPool T1 v A).2)) := by
  refine ⟨?_, ?_, rfl, ?_⟩
  · simp [Destroy, hptr, GetMemoryPool_bound P T w tid mem_pool hslot, hfrom]
  · simp [DestroyN, hptr, GetMemoryPool_bound P T w tid mem_pool hslot, hfrom]
  · intro T1 v A B hinv hAB hne hB
    exact (boost_cross_thread_destroy T1 v A B hinv hAB hne).2.1 hB

/-- Thread 0 creates an object and hands the pointer to thread 1, which has a pool of its own:
`Destroy` on thread 1 returns `kFromElse` and changes nothing. -/
theorem Destroy_not_owned_witness :
    (Create boostPool plainType (initWorld 1000) 0).1 = 1 ∧
    Destroy boostPool plainType twoThreads 1 1 = (kFromElse, twoThreads) ∧
    DestroyN boostPool plainType twoThreads 1 1 7 = (kFromElse, twoThreads) ∧
    kFromElse = -3 :=
  have h := Destroy_not_owned boostPool plainType twoThreads 1 1 7 twoThreads_pool1 (by decide)
    rfl rfl
  ⟨rfl, h.1, h.2.1, h.2.2.1⟩

end tlsmempool
